import Mathlib

/-!
Rotary-encoder menu: quadrature decoder, detent bucketing, windowed cursor, debounce.

A shallow embedding of `src/main.cpp`.  Globals of the sketch become the fields of
`State`; `encoderISR`, `fetchDelta` and `loop` become functions on `State`.

Conventions.

* `int` / `int32_t` values are `Int`; an arithmetic result that can leave the 32-bit
  range for some in-range operands is reduced with `wrap32` (two's complement, as on
  the ESP8266 target).  Results that cannot leave the range (`accum - 4` under
  `accum >= 4`, `accum + 4` under `accum <= -4`, the constant expressions `MENU_LEN - 1`
  and `MAX_LINES - 1`) are written without the reduction.
* `uint8_t` / `uint32_t` values are `Nat`, unsigned subtraction is taken modulo `2^32`.
* `float` values are rationals; every conversion from `int`, quotient and product is rounded
  with `f32` (IEEE 754 binary32, round to nearest, ties to even), `(int)x` truncates.
* The display is an external collaborator: calls into it are recorded as `Event`s.
  `Event.move` is a ghost marker, one per execution of a `while` body in `loop`.
* The build-time constants `MENU_LEN` and `MAX_LINES` are parameters of the `...With`
  functions; `loop` is their instance at the constants of the sketch.
-/

namespace RotaryMenu

/-! ## Constants -/

def SCREEN_WIDTH : Int := 128
def SCREEN_HEIGHT : Int := 64

/-- Line 23: the fixed menu. -/
def MENU_ITEMS : List String := ["Status", "Settings", "About", "Restart", "WiFi", "Debug"]

/-- Line 24: `sizeof(MENU_ITEMS) / sizeof(MENU_ITEMS[0])`. -/
def MENU_LEN : Int := MENU_ITEMS.length

def TITLE_H : Int := 12
def LINE_H : Int := 10

/-- Line 31: number of text lines below the title bar. -/
def MAX_LINES : Int := (SCREEN_HEIGHT - TITLE_H) / LINE_H

/-- Lines 38-43: quadrature table, indexed by `(previous << 2) | current`. -/
def QDEC_LUT : List Int :=
  [ 0, -1,  1,  0,
    1,  0,  0, -1,
   -1,  0,  0,  1,
    0,  1, -1,  0]

def STEPS_PER_DETENT : Int := 4

def BTN_DEBOUNCE_MS : Nat := 30

def INT32_MIN : Int := -2147483648
def INT32_MAX : Int := 2147483647

/-- Reduction of an integer to the 32-bit two's complement range. -/
def wrap32 (x : Int) : Int := (x + 2147483648) % 4294967296 - 2147483648

/-- Unsigned 32-bit subtraction `a - b`. -/
def sub32 (a b : Nat) : Nat := (a + 4294967296 - b % 4294967296) % 4294967296

/-! ## State -/

/-- The mutable globals of the sketch, and the function-local `static accum` of `loop`. -/
structure State where
  cursor : Int
  windowStart : Int
  enc_delta : Int
  enc_state : Nat
  accum : Int
  btnPrev : Bool
  btnLastChangeMs : Nat
deriving DecidableEq, Repr

/-- What the polling context hands to the display, in program order. -/
inductive Event where
  /-- Ghost: one execution of a `while` body of `loop`, `1` for the first loop, `-1` for the second. -/
  | move (dir : Int)
  /-- Call of `drawMenu()`, which renders from the globals `cursor` and `windowStart`. -/
  | drawMenu (cursor windowStart : Int)
  /-- The `println(text)` of `confirmSelection`; `none` stands for a read outside `MENU_ITEMS`. -/
  | selected (text : Option String)
  /-- The "Restarting..." notice of `confirmSelection`. -/
  | restarting
deriving DecidableEq, Repr

/-- Globals as initialised at lines 25-26, 35-36, 68-69 and 160; `setup` stores `readAB()`
in `enc_state`. -/
def initState (ab : Nat) : State :=
  { cursor := 0, windowStart := 0, enc_delta := 0, enc_state := ab % 256, accum := 0,
    btnPrev := true, btnLastChangeMs := 0 }

/-! ## Rotary decoder (interrupt context) -/

/-- Lines 47-49: `(digitalRead(A) << 1) | digitalRead(B)`. -/
def readAB (a b : Bool) : Nat := (a.toNat <<< 1) ||| b.toNat

/-- Line 53: the table index. -/
def lutIndex (enc_state newAB : Nat) : Nat := ((enc_state &&& 0x03) <<< 2) ||| (newAB &&& 0x03)

/-- Line 54: `QDEC_LUT[idx]`; outside the table the read yields `none`. -/
def lutStep (idx : Nat) : Option Int := QDEC_LUT[idx]?

/-- Lines 51-57; `newAB` is the value returned by `readAB()`.  A read outside the table
(which `lutIndex` never produces) is `none`. -/
def encoderISR (s : State) (newAB : Nat) : Option State :=
  let idx := lutIndex s.enc_state newAB
  match lutStep idx with
  | none => none
  | some step =>
    let s1 := { s with enc_state := newAB &&& 0x03 }
    some (if step ≠ 0 then { s1 with enc_delta := wrap32 (s1.enc_delta + step) } else s1)

/-- Lines 59-65: read and clear `enc_delta` with interrupts masked. -/
def fetchDelta (s : State) : Int × State :=
  let d := s.enc_delta
  (d, { s with enc_delta := 0 })

/-! ## Polling context -/

/-- Line 163: `while (accum >= STEPS_PER_DETENT) { accum -= STEPS_PER_DETENT;
cursor = min(cursor + 1, MENU_LEN - 1); }` on `(accum, cursor)`, with the ghost trace. -/
def whileUp (menuLen : Int) (accum cursor : Int) (moves : List Event) : Int × Int × List Event :=
  if STEPS_PER_DETENT ≤ accum then
    whileUp menuLen (accum - STEPS_PER_DETENT) (min (wrap32 (cursor + 1)) (menuLen - 1))
      (moves ++ [Event.move 1])
  else (accum, cursor, moves)
termination_by accum.toNat
decreasing_by
  simp only [STEPS_PER_DETENT] at *
  omega

/-- Line 164: `while (accum <= -STEPS_PER_DETENT) { accum += STEPS_PER_DETENT;
cursor = max(cursor - 1, 0); }` on `(accum, cursor)`, with the ghost trace. -/
def whileDown (accum cursor : Int) (moves : List Event) : Int × Int × List Event :=
  if accum ≤ -STEPS_PER_DETENT then
    whileDown (accum + STEPS_PER_DETENT) (max (wrap32 (cursor - 1)) 0) (moves ++ [Event.move (-1)])
  else (accum, cursor, moves)
termination_by (-accum).toNat
decreasing_by
  simp only [STEPS_PER_DETENT] at *
  omega

/-- Lines 166-167: the window follows the cursor. -/
def updateWindow (maxLines : Int) (cursor windowStart : Int) : Int :=
  if cursor < windowStart then cursor
  else if wrap32 (windowStart + maxLines) ≤ cursor then wrap32 (cursor - (maxLines - 1))
  else windowStart

/-- Lines 159-170, the body of `if (d)`. -/
def loopRotary (menuLen maxLines : Int) (s : State) (d : Int) : State × List Event :=
  let accum := wrap32 (s.accum + d)
  let (accum1, cursor1, moves1) := whileUp menuLen accum s.cursor []
  let (accum2, cursor2, moves2) := whileDown accum1 cursor1 moves1
  let windowStart2 := updateWindow maxLines cursor2 s.windowStart
  ({ s with accum := accum2, cursor := cursor2, windowStart := windowStart2 },
   moves2 ++ [Event.drawMenu cursor2 windowStart2])

/-- Line 179: `MENU_ITEMS[cursor]`. -/
def menuItem (cursor : Int) : Option String :=
  if 0 ≤ cursor then MENU_ITEMS[cursor.toNat]? else none

/-- Lines 114-132: prints the text, the restart notice for "Restart", then redraws the menu.
No global is written. -/
def confirmSelection (s : State) (text : Option String) : List Event :=
  [Event.selected text] ++ (if text = some "Restart" then [Event.restarting] else [])
    ++ [Event.drawMenu s.cursor s.windowStart]

/-- Lines 173-181; `btnNow` is `digitalRead(PIN_BTN)` and `now` is `millis()`. -/
def loopButton (s : State) (btnNow : Bool) (now : Nat) : State × List Event :=
  if btnNow ≠ s.btnPrev ∧ sub32 now s.btnLastChangeMs > BTN_DEBOUNCE_MS then
    let s1 := { s with btnLastChangeMs := now, btnPrev := btnNow }
    if !btnNow then (s1, confirmSelection s1 (menuItem s1.cursor)) else (s1, [])
  else (s, [])

/-- Lines 156-184, with the build-time constants as parameters. -/
def loopWith (menuLen maxLines : Int) (s : State) (btnNow : Bool) (now : Nat) :
    State × List Event :=
  let (d, s1) := fetchDelta s
  let (s2, ev1) := if d ≠ 0 then loopRotary menuLen maxLines s1 d else (s1, [])
  let (s3, ev2) := loopButton s2 btnNow now
  (s3, ev1 ++ ev2)

/-- The `loop()` of the sketch. -/
def loop (s : State) (btnNow : Bool) (now : Nat) : State × List Event :=
  loopWith MENU_LEN MAX_LINES s btnNow now

/-! ## Runs of the polling context -/

/-- One poll: what `fetchDelta` drains in this cycle, the sampled button level and `millis()`. -/
structure Poll where
  d : Int
  btnNow : Bool
  now : Nat
deriving DecidableEq, Repr

/-- One poll cycle: the interrupts since the last drain have left `p.d` in `enc_delta`,
then `loop()` runs once. -/
def pollCycleWith (menuLen maxLines : Int) (s : State) (p : Poll) : State × List Event :=
  loopWith menuLen maxLines { s with enc_delta := p.d } p.btnNow p.now

/-- Successive poll cycles; the events are concatenated in program order. -/
def runCyclesWith (menuLen maxLines : Int) (s : State) : List Poll → State × List Event
  | [] => (s, [])
  | p :: ps =>
    let r1 := pollCycleWith menuLen maxLines s p
    let r2 := runCyclesWith menuLen maxLines r1.1 ps
    (r2.1, r1.2 ++ r2.2)

def pollCycle (s : State) (p : Poll) : State × List Event :=
  pollCycleWith MENU_LEN MAX_LINES s p

def runCycles (s : State) (ps : List Poll) : State × List Event :=
  runCyclesWith MENU_LEN MAX_LINES s ps

/-- Consecutive runs of `loop()` with no interrupt in between: `enc_delta` is whatever the
previous run left; each entry is the button level and the `millis()` value sampled. -/
def loopTimes (s : State) : List (Bool × Nat) → State
  | [] => s
  | bt :: rest => loopTimes (loop s bt.1 bt.2).1 rest

/-- The signed total of the raw steps drained over a sequence of polls. -/
def drained (ps : List Poll) : Int := (ps.map Poll.d).sum

/-- The directions of the cursor moves among the events, in order. -/
def movesOf : List Event → List Int
  | [] => []
  | Event.move dir :: es => dir :: movesOf es
  | _ :: es => movesOf es

/-- The texts handed to `confirmSelection` among the events, in order. -/
def selectionsOf : List Event → List (Option String)
  | [] => []
  | Event.selected text :: es => text :: selectionsOf es
  | _ :: es => selectionsOf es

/-- The table entry for the transition from line state `prev` to line state `cur`:
`QDEC_LUT[(prev << 2) | cur]`. -/
def lutAt (prev cur : Nat) : Option Int := lutStep ((prev <<< 2) ||| cur)

/-- Two 2-bit line states differ in exactly one bit. -/
def oneBitApart (prev cur : Nat) : Prop := prev ^^^ cur = 1 ∨ prev ^^^ cur = 2

instance (prev cur : Nat) : Decidable (oneBitApart prev cur) := by
  unfold oneBitApart
  infer_instance

/-- Two 2-bit line states differ in both bits. -/
def twoBitsApart (prev cur : Nat) : Prop := prev ^^^ cur = 3

instance (prev cur : Nat) : Decidable (twoBitsApart prev cur) := by
  unfold twoBitsApart
  infer_instance

/-- The menu invariant for a list of `n` items shown `v` at a time. -/
def MenuInv (n v : Int) (s : State) : Prop :=
  (0 ≤ s.cursor ∧ s.cursor < n) ∧
  (s.windowStart ≤ s.cursor ∧ s.cursor ≤ s.windowStart + v - 1) ∧
  (0 ≤ s.windowStart ∧ s.windowStart ≤ max 0 (n - v))

instance (n v : Int) (s : State) : Decidable (MenuInv n v s) := by
  unfold MenuInv
  infer_instance

/-- Whether the `if` of line 175 is taken in a poll cycle, read off its effect: the
reported level `btnPrev` changes. -/
def edgeFired (s : State) (p : Poll) : Bool := (pollCycle s p).1.btnPrev != s.btnPrev

/-- The number of button edges (presses and releases) reported over a run of poll cycles. -/
def edgeCount (s : State) : List Poll → Nat
  | [] => 0
  | p :: ps => (if edgeFired s p then 1 else 0) + edgeCount (pollCycle s p).1 ps

/-- The polls taken at the `n` consecutive milliseconds `t + i, t + i + 1, ...` (as 32-bit
`millis()` values) that all sample the button at `level`; `ds j` is drained at `t + j`. -/
def holdPolls (ds : Nat → Int) (level : Bool) (t : Nat) : Nat → Nat → List Poll
  | _, 0 => []
  | i, n + 1 => ⟨ds i, level, (t + i) % 4294967296⟩ :: holdPolls ds level t (i + 1) n

/-- The interrupt handler run on each sample of a sequence, in order. -/
def runISR (s : State) : List Nat → Option State
  | [] => some s
  | x :: xs =>
    match encoderISR s x with
    | none => none
    | some s1 => runISR s1 xs

/-- The position of a 2-bit line state on the cycle `00, 10, 11, 01`. -/
def phase (ab : Nat) : Int :=
  if ab = 0 then 0 else if ab = 2 then 1 else if ab = 3 then 2 else 3

/-- Every sample is a 2-bit value that equals the state before it or differs from it in
exactly one bit. -/
def validChain (prev : Nat) : List Nat → Prop
  | [] => True
  | x :: xs => x < 4 ∧ (x = prev ∨ oneBitApart prev x) ∧ validChain x xs

instance validChainDecidable (prev : Nat) (xs : List Nat) : Decidable (validChain prev xs) := by
  induction xs generalizing prev with
  | nil => exact isTrue trivial
  | cons x xs ih =>
    unfold validChain
    have := ih x
    infer_instance

/-- The conversion `(int)x` of a `float`: truncation toward zero. -/
def truncToInt (q : ℚ) : Int := if 0 ≤ q then ⌊q⌋ else ⌈q⌉

theorem wrap32_of_range (x : Int) (h1 : INT32_MIN ≤ x) (h2 : x ≤ INT32_MAX) : wrap32 x = x := by
  simp only [INT32_MIN, INT32_MAX] at h1 h2
  unfold wrap32
  omega

theorem wrap32_range (x : Int) : INT32_MIN ≤ wrap32 x ∧ wrap32 x ≤ INT32_MAX := by
  simp only [INT32_MIN, INT32_MAX]
  unfold wrap32
  omega

theorem MENU_LEN_eq : MENU_LEN = 6 := by decide

theorem MAX_LINES_eq : MAX_LINES = 5 := by decide

theorem movesOf_append (xs ys : List Event) : movesOf (xs ++ ys) = movesOf xs ++ movesOf ys := by
  induction xs with
  | nil => rfl
  | cons e es ih => cases e <;> simp [movesOf, ih]

theorem movesOf_replicate_move (k : Nat) (dir : Int) :
    movesOf (List.replicate k (Event.move dir)) = List.replicate k dir := by
  induction k with
  | zero => rfl
  | succ k ih => simp [List.replicate_succ, movesOf, ih]

/-- Closed form of the first `while` loop: it runs `accum / 4` times (not at all for
`accum < 4`), each time moving the saturating cursor up by one. -/
theorem whileUp_closed (n : Int) (hn : n ≤ INT32_MAX) (a c : Int) (ms : List Event)
    (hc0 : 0 ≤ c) (hc1 : c ≤ n - 1) :
    whileUp n a c ms =
      (a - 4 * ((a / 4).toNat : Int), min (c + ((a / 4).toNat : Int)) (n - 1),
        ms ++ List.replicate (a / 4).toNat (Event.move 1)) := by
  induction a, c, ms using whileUp.induct n with
  | case1 a c ms h ih =>
    simp only [STEPS_PER_DETENT] at h ih
    simp only [INT32_MAX] at hn
    have hw : wrap32 (c + 1) = c + 1 := by
      apply wrap32_of_range <;> simp only [INT32_MIN, INT32_MAX] <;> omega
    rw [whileUp, if_pos (by simpa [STEPS_PER_DETENT] using h)]
    simp only [STEPS_PER_DETENT]
    rw [hw] at ih ⊢
    rw [ih (by omega) (by omega)]
    have hk : (a / 4).toNat = ((a - 4) / 4).toNat + 1 := by omega
    rw [hk, List.replicate_succ]
    refine Prod.ext ?_ (Prod.ext ?_ ?_)
    · simp only; push_cast; omega
    · simp only; push_cast; omega
    · simp
  | case2 a c ms h =>
    simp only [STEPS_PER_DETENT] at h
    rw [whileUp, if_neg (by simpa [STEPS_PER_DETENT] using h)]
    have hk : (a / 4).toNat = 0 := by omega
    rw [hk]
    refine Prod.ext ?_ (Prod.ext ?_ ?_)
    · simp
    · simp only; push_cast; omega
    · simp

/-- Closed form of the second `while` loop: it runs `(-accum) / 4` times (not at all for
`accum > -4`), each time moving the saturating cursor down by one. -/
theorem whileDown_closed (a c : Int) (ms : List Event) (hc0 : 0 ≤ c) (hc1 : c ≤ INT32_MAX) :
    whileDown a c ms =
      (a + 4 * (((-a) / 4).toNat : Int), max (c - (((-a) / 4).toNat : Int)) 0,
        ms ++ List.replicate ((-a) / 4).toNat (Event.move (-1))) := by
  induction a, c, ms using whileDown.induct with
  | case1 a c ms h ih =>
    simp only [STEPS_PER_DETENT] at h ih
    simp only [INT32_MAX] at hc1
    have hw : wrap32 (c - 1) = c - 1 := by
      apply wrap32_of_range <;> simp only [INT32_MIN, INT32_MAX] <;> omega
    rw [whileDown, if_pos (by simpa [STEPS_PER_DETENT] using h)]
    simp only [STEPS_PER_DETENT]
    rw [hw] at ih ⊢
    rw [ih (by omega) (by simp only [INT32_MAX]; omega)]
    have hk : ((-a) / 4).toNat = ((-(a + 4)) / 4).toNat + 1 := by omega
    rw [hk, List.replicate_succ]
    refine Prod.ext ?_ (Prod.ext ?_ ?_)
    · simp only; push_cast; omega
    · simp only; push_cast; omega
    · simp
  | case2 a c ms h =>
    simp only [STEPS_PER_DETENT] at h
    rw [whileDown, if_neg (by simpa [STEPS_PER_DETENT] using h)]
    have hk : ((-a) / 4).toNat = 0 := by omega
    rw [hk]
    refine Prod.ext ?_ (Prod.ext ?_ ?_)
    · simp
    · simp only; push_cast; omega
    · simp

/-- The remainder and the trace of the first `while` loop, for any cursor. -/
theorem whileUp_trace (n a c : Int) (ms : List Event) :
    (whileUp n a c ms).1 = a - 4 * ((a / 4).toNat : Int) ∧
    (whileUp n a c ms).2.2 = ms ++ List.replicate (a / 4).toNat (Event.move 1) := by
  induction a, c, ms using whileUp.induct n with
  | case1 a c ms h ih =>
    simp only [STEPS_PER_DETENT] at h ih
    rw [whileUp, if_pos (by simpa [STEPS_PER_DETENT] using h)]
    simp only [STEPS_PER_DETENT]
    have hk : (a / 4).toNat = ((a - 4) / 4).toNat + 1 := by omega
    rw [ih.1, ih.2, hk, List.replicate_succ]
    constructor
    · push_cast; omega
    · simp
  | case2 a c ms h =>
    simp only [STEPS_PER_DETENT] at h
    rw [whileUp, if_neg (by simpa [STEPS_PER_DETENT] using h)]
    have hk : (a / 4).toNat = 0 := by omega
    rw [hk]
    simp

/-- The remainder and the trace of the second `while` loop, for any cursor. -/
theorem whileDown_trace (a c : Int) (ms : List Event) :
    (whileDown a c ms).1 = a + 4 * (((-a) / 4).toNat : Int) ∧
    (whileDown a c ms).2.2 = ms ++ List.replicate ((-a) / 4).toNat (Event.move (-1)) := by
  induction a, c, ms using whileDown.induct with
  | case1 a c ms h ih =>
    simp only [STEPS_PER_DETENT] at h ih
    rw [whileDown, if_pos (by simpa [STEPS_PER_DETENT] using h)]
    simp only [STEPS_PER_DETENT]
    have hk : ((-a) / 4).toNat = ((-(a + 4)) / 4).toNat + 1 := by omega
    rw [ih.1, ih.2, hk, List.replicate_succ]
    constructor
    · push_cast; omega
    · simp
  | case2 a c ms h =>
    simp only [STEPS_PER_DETENT] at h
    rw [whileDown, if_neg (by simpa [STEPS_PER_DETENT] using h)]
    have hk : ((-a) / 4).toNat = 0 := by omega
    rw [hk]
    simp

/-- The remainder and the cursor moves of the rotary half of `loop`, for any state: with
`A = wrap32 (accum + d)`, `A / 4` moves up followed by `(-A) / 4` moves down. -/
theorem loopRotary_trace (n v : Int) (s : State) (d : Int) :
    (loopRotary n v s d).1.accum =
      wrap32 (s.accum + d) - 4 * ((wrap32 (s.accum + d) / 4).toNat : Int)
        + 4 * (((-wrap32 (s.accum + d)) / 4).toNat : Int) ∧
    movesOf (loopRotary n v s d).2 =
      List.replicate (wrap32 (s.accum + d) / 4).toNat 1
        ++ List.replicate ((-wrap32 (s.accum + d)) / 4).toNat (-1) := by
  generalize hA : wrap32 (s.accum + d) = A
  have hkd : ((-(A - 4 * ((A / 4).toNat : Int))) / 4).toNat = ((-A) / 4).toNat := by omega
  obtain ⟨u1, u2⟩ := whileUp_trace n A s.cursor []
  obtain ⟨d1, d2⟩ := whileDown_trace (whileUp n A s.cursor []).1 (whileUp n A s.cursor []).2.1
    (whileUp n A s.cursor []).2.2
  unfold loopRotary
  simp only [hA]
  constructor
  · rw [d1, u1, hkd]
  · rw [movesOf_append, d2, u2, u1, hkd, movesOf_append, movesOf_append,
      movesOf_replicate_move, movesOf_replicate_move]
    simp [movesOf]

/-- Closed form of the rotary half of `loop` for a cursor inside the list: with
`A = wrap32 (accum + d)` the first loop runs `A / 4` times, the second `(-A) / 4` times
(at most one of the two counts is non-zero), then the window follows the cursor. -/
theorem loopRotary_closed (n v : Int) (hn : n ≤ INT32_MAX) (s : State) (d : Int)
    (hc0 : 0 ≤ s.cursor) (hc1 : s.cursor ≤ n - 1) :
    loopRotary n v s d =
      ({ s with
          accum := wrap32 (s.accum + d) - 4 * ((wrap32 (s.accum + d) / 4).toNat : Int)
            + 4 * (((-wrap32 (s.accum + d)) / 4).toNat : Int),
          cursor := max (min (s.cursor + ((wrap32 (s.accum + d) / 4).toNat : Int)) (n - 1)
            - (((-wrap32 (s.accum + d)) / 4).toNat : Int)) 0,
          windowStart := updateWindow v
            (max (min (s.cursor + ((wrap32 (s.accum + d) / 4).toNat : Int)) (n - 1)
              - (((-wrap32 (s.accum + d)) / 4).toNat : Int)) 0) s.windowStart },
       List.replicate (wrap32 (s.accum + d) / 4).toNat (Event.move 1)
         ++ List.replicate ((-wrap32 (s.accum + d)) / 4).toNat (Event.move (-1))
         ++ [Event.drawMenu
              (max (min (s.cursor + ((wrap32 (s.accum + d) / 4).toNat : Int)) (n - 1)
                - (((-wrap32 (s.accum + d)) / 4).toNat : Int)) 0)
              (updateWindow v
                (max (min (s.cursor + ((wrap32 (s.accum + d) / 4).toNat : Int)) (n - 1)
                  - (((-wrap32 (s.accum + d)) / 4).toNat : Int)) 0) s.windowStart)]) := by
  generalize hA : wrap32 (s.accum + d) = A
  have hkd : ((-(A - 4 * ((A / 4).toNat : Int))) / 4).toNat = ((-A) / 4).toNat := by omega
  simp only [INT32_MAX] at hn
  unfold loopRotary
  simp only [hA]
  rw [whileUp_closed n (by simpa [INT32_MAX] using hn) A s.cursor [] hc0 hc1]
  simp only
  rw [whileDown_closed _ _ _ (by omega) (by simp only [INT32_MAX]; omega)]
  simp only [hkd, List.nil_append]

theorem loopButton_cursor (s : State) (b : Bool) (t : Nat) :
    (loopButton s b t).1.cursor = s.cursor ∧ (loopButton s b t).1.windowStart = s.windowStart ∧
    (loopButton s b t).1.accum = s.accum ∧ (loopButton s b t).1.enc_delta = s.enc_delta ∧
    (loopButton s b t).1.enc_state = s.enc_state ∧ movesOf (loopButton s b t).2 = [] := by
  unfold loopButton
  split
  · cases b
    · simp only [confirmSelection, Bool.not_false, if_true]
      split <;> simp [movesOf]
    · simp [movesOf]
  · simp [movesOf]

/-- The two halves of `loop` in sequence. -/
theorem loopWith_eq (n v : Int) (s : State) (b : Bool) (t : Nat) :
    loopWith n v s b t =
      ((loopButton (if s.enc_delta ≠ 0 then loopRotary n v { s with enc_delta := 0 } s.enc_delta
          else ({ s with enc_delta := 0 }, [])).1 b t).1,
       (if s.enc_delta ≠ 0 then loopRotary n v { s with enc_delta := 0 } s.enc_delta
          else ({ s with enc_delta := 0 }, [])).2 ++
       (loopButton (if s.enc_delta ≠ 0 then loopRotary n v { s with enc_delta := 0 } s.enc_delta
          else ({ s with enc_delta := 0 }, [])).1 b t).2) := by
  unfold loopWith fetchDelta
  rfl

/-- Inside the invariant the window update involves no 32-bit reduction. -/
theorem updateWindow_exact (n v c w : Int) (hn : n ≤ INT32_MAX) (hv1 : 1 ≤ v) (hv : v ≤ INT32_MAX)
    (hc0 : 0 ≤ c) (hc1 : c ≤ n - 1) (hw0 : 0 ≤ w) (hw1 : w ≤ max 0 (n - v)) :
    updateWindow v c w = if c < w then c else if w + v ≤ c then c - (v - 1) else w := by
  simp only [INT32_MAX] at hn hv
  unfold updateWindow
  rw [wrap32_of_range (w + v) (by simp only [INT32_MIN]; omega) (by simp only [INT32_MAX]; omega),
    wrap32_of_range (c - (v - 1)) (by simp only [INT32_MIN]; omega)
      (by simp only [INT32_MAX]; omega)]

/-- One run of `loop` preserves the menu invariant, whatever was drained and sampled. -/
theorem loopWith_inv (n v : Int) (hn1 : 1 ≤ n) (hn : n ≤ INT32_MAX) (hv1 : 1 ≤ v)
    (hv : v ≤ INT32_MAX) (s : State) (hinv : MenuInv n v s) (b : Bool) (t : Nat) :
    MenuInv n v (loopWith n v s b t).1 := by
  obtain ⟨⟨h1, h2⟩, ⟨h3, h4⟩, h5, h6⟩ := hinv
  rw [loopWith_eq]
  simp only
  obtain ⟨e1, e2, -⟩ := loopButton_cursor
    (if s.enc_delta ≠ 0 then loopRotary n v { s with enc_delta := 0 } s.enc_delta
      else ({ s with enc_delta := 0 }, [])).1 b t
  unfold MenuInv
  rw [e1, e2]
  by_cases hd : s.enc_delta = 0
  · simp only [hd, ne_eq, not_true_eq_false, if_false]
    exact ⟨⟨h1, h2⟩, ⟨h3, h4⟩, h5, h6⟩
  · simp only [ne_eq, hd, not_false_eq_true, if_true]
    rw [loopRotary_closed n v hn { s with enc_delta := 0 } s.enc_delta h1
      (by show s.cursor ≤ n - 1; omega)]
    simp only
    generalize (wrap32 (s.accum + s.enc_delta) / 4).toNat = ku
    generalize ((-wrap32 (s.accum + s.enc_delta)) / 4).toNat = kd
    generalize hc : max (min (s.cursor + (ku : Int)) (n - 1) - (kd : Int)) 0 = c
    have hc0 : 0 ≤ c := by omega
    have hc1 : c ≤ n - 1 := by omega
    rw [updateWindow_exact n v c s.windowStart hn hv1 hv hc0 hc1 h5 h6]
    split_ifs <;> omega

theorem runCyclesWith_inv (n v : Int) (hn1 : 1 ≤ n) (hn : n ≤ INT32_MAX) (hv1 : 1 ≤ v)
    (hv : v ≤ INT32_MAX) (polls : List Poll) :
    ∀ s : State, MenuInv n v s → MenuInv n v (runCyclesWith n v s polls).1 := by
  induction polls with
  | nil => intro s h; exact h
  | cons p ps ih =>
    intro s h
    simp only [runCyclesWith]
    apply ih
    unfold pollCycleWith
    apply loopWith_inv n v hn1 hn hv1 hv
    exact h

theorem selectionsOf_append (xs ys : List Event) :
    selectionsOf (xs ++ ys) = selectionsOf xs ++ selectionsOf ys := by
  induction xs with
  | nil => rfl
  | cons e es ih => cases e <;> simp [selectionsOf, ih]

theorem selectionsOf_replicate_move (k : Nat) (dir : Int) :
    selectionsOf (List.replicate k (Event.move dir)) = [] := by
  induction k with
  | zero => rfl
  | succ k ih => simp [List.replicate_succ, selectionsOf, ih]

/-- The rotary half of `loop` never calls `confirmSelection`. -/
theorem loopRotary_selections (n v : Int) (s : State) (d : Int) :
    selectionsOf (loopRotary n v s d).2 = [] := by
  obtain ⟨-, u2⟩ := whileUp_trace n (wrap32 (s.accum + d)) s.cursor []
  obtain ⟨-, d2⟩ := whileDown_trace (whileUp n (wrap32 (s.accum + d)) s.cursor []).1
    (whileUp n (wrap32 (s.accum + d)) s.cursor []).2.1
    (whileUp n (wrap32 (s.accum + d)) s.cursor []).2.2
  unfold loopRotary
  simp only
  rw [selectionsOf_append, d2, u2, selectionsOf_append, selectionsOf_append,
    selectionsOf_replicate_move, selectionsOf_replicate_move]
  simp [selectionsOf]

/-- The unsigned difference is the integer difference reduced modulo `2^32`. -/
theorem sub32_eq (a b : Nat) : (sub32 a b : Int) = ((a : Int) - (b : Int)) % 4294967296 := by
  unfold sub32
  omega

/-- The button half of `loop`, field by field. -/
theorem loopButton_closed (s : State) (b : Bool) (t : Nat) :
    (loopButton s b t).1.btnPrev
      = (if b ≠ s.btnPrev ∧ sub32 t s.btnLastChangeMs > BTN_DEBOUNCE_MS then b else s.btnPrev) ∧
    (loopButton s b t).1.btnLastChangeMs
      = (if b ≠ s.btnPrev ∧ sub32 t s.btnLastChangeMs > BTN_DEBOUNCE_MS then t
         else s.btnLastChangeMs) ∧
    selectionsOf (loopButton s b t).2
      = (if (b ≠ s.btnPrev ∧ sub32 t s.btnLastChangeMs > BTN_DEBOUNCE_MS) ∧ b = false
         then [menuItem s.cursor] else []) := by
  unfold loopButton
  by_cases h : b ≠ s.btnPrev ∧ sub32 t s.btnLastChangeMs > BTN_DEBOUNCE_MS
  · have h3 : ((b ≠ s.btnPrev ∧ sub32 t s.btnLastChangeMs > BTN_DEBOUNCE_MS) ∧ b = false) ↔
        b = false := ⟨fun x => x.2, fun x => ⟨h, x⟩⟩
    rw [if_pos h, if_pos h, if_pos h]
    simp only [h3]
    cases b
    · simp only [Bool.not_false, if_true, confirmSelection]
      split <;> simp [selectionsOf]
    · simp [selectionsOf]
  · rw [if_neg h, if_neg h, if_neg h, if_neg (fun hh => h hh.1)]
    simp [selectionsOf]

/-- Inside the list the read `MENU_ITEMS[cursor]` is in bounds. -/
theorem menuItem_inBounds (c : Int) (h0 : 0 ≤ c) (h1 : c < MENU_LEN) :
    c.toNat < MENU_ITEMS.length ∧ ∃ item, MENU_ITEMS[c.toNat]? = some item ∧
      menuItem c = some item := by
  have hN := MENU_LEN_eq
  have hlen : MENU_ITEMS.length = 6 := by decide
  have hlt : c.toNat < MENU_ITEMS.length := by omega
  refine ⟨hlt, MENU_ITEMS[c.toNat], List.getElem?_eq_getElem hlt, ?_⟩
  unfold menuItem
  rw [if_pos h0]
  exact List.getElem?_eq_getElem hlt

/-- With nothing drained, `loop` is its button half. -/
theorem loopWith_idle (n v : Int) (s : State) (hd : s.enc_delta = 0) (b : Bool) (t : Nat) :
    loopWith n v s b t = loopButton s b t := by
  have hs : { s with enc_delta := 0 } = s := by
    cases s
    simp only at hd
    simp [hd]
  rw [loopWith_eq]
  simp only [hd, ne_eq, not_true_eq_false, if_false, List.nil_append, hs]

/-- The cursor and the window after one poll cycle from a cursor inside the list. -/
theorem pollCycleWith_closed (n v : Int) (hn : n ≤ INT32_MAX) (s : State) (p : Poll)
    (hc0 : 0 ≤ s.cursor) (hc1 : s.cursor ≤ n - 1) :
    (pollCycleWith n v s p).1.cursor =
      (if p.d ≠ 0 then
        max (min (s.cursor + ((wrap32 (s.accum + p.d) / 4).toNat : Int)) (n - 1)
          - (((-wrap32 (s.accum + p.d)) / 4).toNat : Int)) 0
       else s.cursor) ∧
    (pollCycleWith n v s p).1.windowStart =
      (if p.d ≠ 0 then
        updateWindow v
          (max (min (s.cursor + ((wrap32 (s.accum + p.d) / 4).toNat : Int)) (n - 1)
            - (((-wrap32 (s.accum + p.d)) / 4).toNat : Int)) 0) s.windowStart
       else s.windowStart) := by
  unfold pollCycleWith
  rw [loopWith_eq]
  simp only
  obtain ⟨e1, e2, -⟩ := loopButton_cursor
    (if p.d ≠ 0 then loopRotary n v { s with enc_delta := 0 } p.d
      else ({ s with enc_delta := 0 }, [])).1 p.btnNow p.now
  rw [e1, e2]
  by_cases hd : p.d = 0
  · simp [hd]
  · simp only [ne_eq, hd, not_false_eq_true, if_true]
    rw [loopRotary_closed n v hn { s with enc_delta := 0 } p.d hc0 hc1]
    exact ⟨rfl, rfl⟩

/-- The remainder and the cursor moves of one poll cycle, for any state. -/
theorem pollCycleWith_trace (n v : Int) (s : State) (p : Poll) :
    (pollCycleWith n v s p).1.accum =
      (if p.d ≠ 0 then
        wrap32 (s.accum + p.d) - 4 * ((wrap32 (s.accum + p.d) / 4).toNat : Int)
          + 4 * (((-wrap32 (s.accum + p.d)) / 4).toNat : Int)
       else s.accum) ∧
    movesOf (pollCycleWith n v s p).2 =
      (if p.d ≠ 0 then
        List.replicate (wrap32 (s.accum + p.d) / 4).toNat 1
          ++ List.replicate ((-wrap32 (s.accum + p.d)) / 4).toNat (-1)
       else []) := by
  unfold pollCycleWith
  rw [loopWith_eq]
  simp only
  obtain ⟨-, -, e3, -, -, e6⟩ := loopButton_cursor
    (if p.d ≠ 0 then loopRotary n v { s with enc_delta := 0 } p.d
      else ({ s with enc_delta := 0 }, [])).1 p.btnNow p.now
  rw [e3, movesOf_append, e6, List.append_nil]
  by_cases hd : p.d = 0
  · simp [hd, movesOf]
  · simp only [ne_eq, hd, not_false_eq_true, if_true]
    exact loopRotary_trace n v { s with enc_delta := 0 } p.d

/-- One poll cycle in direction `sg`: a remainder of sign `sg` below one detent and a
drained batch of sign `sg` whose sum fits in 32 bits leave `(|accum| + |d|) mod 4`
as the remainder and emit `(|accum| + |d|) / 4` moves in direction `sg`. -/
theorem pollCycleWith_signed (n v : Int) (sg : Int) (hs : sg = 1 ∨ sg = -1) (s : State)
    (p : Poll) (ha0 : 0 ≤ sg * s.accum) (ha1 : sg * s.accum < 4) (hd : 0 < sg * p.d)
    (hfit : INT32_MIN ≤ s.accum + p.d ∧ s.accum + p.d ≤ INT32_MAX) :
    (pollCycleWith n v s p).1.accum = sg * ((sg * (s.accum + p.d)) % 4) ∧
    movesOf (pollCycleWith n v s p).2 =
      List.replicate ((sg * (s.accum + p.d)) / 4).toNat sg := by
  obtain ⟨e1, e2⟩ := pollCycleWith_trace n v s p
  have hw := wrap32_of_range (s.accum + p.d) hfit.1 hfit.2
  rw [hw] at e1 e2
  rcases hs with rfl | rfl
  · simp only [one_mul] at ha0 ha1 hd ⊢
    have hd0 : p.d ≠ 0 := by omega
    have hk : ((-(s.accum + p.d)) / 4).toNat = 0 := by omega
    rw [if_pos hd0, hk] at e1 e2
    rw [e1, e2]
    constructor
    · push_cast; omega
    · simp
  · simp only [neg_mul, one_mul] at ha0 ha1 hd ⊢
    have hd0 : p.d ≠ 0 := by omega
    have hk : ((s.accum + p.d) / 4).toNat = 0 := by omega
    rw [if_pos hd0, hk] at e1 e2
    rw [e1, e2]
    constructor
    · push_cast; omega
    · simp

theorem drained_cons (p : Poll) (ps : List Poll) : drained (p :: ps) = p.d + drained ps := by
  simp [drained]

theorem drained_sign (sg : Int) (hs : sg = 1 ∨ sg = -1) (ps : List Poll)
    (hsign : ∀ p ∈ ps, 0 < sg * p.d) : 0 ≤ sg * drained ps := by
  induction ps with
  | nil => simp [drained]
  | cons p ps ih =>
    have h1 := hsign p (List.mem_cons_self _ _)
    have h2 := ih (fun q hq => hsign q (List.mem_cons_of_mem _ hq))
    rw [drained_cons]
    rcases hs with rfl | rfl
    · simp only [one_mul] at h1 h2 ⊢; omega
    · simp only [neg_mul, one_mul] at h1 h2 ⊢; omega

/-- Bucketing over a run of poll cycles in direction `sg`, from any remainder of sign `sg`
below one detent. -/
theorem runCyclesWith_signed (n v : Int) (sg : Int) (hs : sg = 1 ∨ sg = -1)
    (polls : List Poll) :
    ∀ s : State, 0 ≤ sg * s.accum → sg * s.accum < 4 →
      (∀ p ∈ polls, 0 < sg * p.d) →
      (∀ pre p post, polls = pre ++ p :: post →
        INT32_MIN ≤ sg * ((sg * (s.accum + drained pre)) % 4) + p.d ∧
        sg * ((sg * (s.accum + drained pre)) % 4) + p.d ≤ INT32_MAX) →
      (runCyclesWith n v s polls).1.accum = sg * ((sg * (s.accum + drained polls)) % 4) ∧
      movesOf (runCyclesWith n v s polls).2 =
        List.replicate ((sg * (s.accum + drained polls)) / 4).toNat sg := by
  induction polls with
  | nil =>
    intro s ha0 ha1 _ _
    simp only [runCyclesWith, drained, List.map_nil, List.sum_nil, add_zero, movesOf]
    rcases hs with rfl | rfl
    · simp only [one_mul] at ha0 ha1 ⊢
      have hk : (s.accum / 4).toNat = 0 := by omega
      rw [hk]
      constructor
      · omega
      · rfl
    · simp only [neg_mul, one_mul] at ha0 ha1 ⊢
      have hk : ((-s.accum) / 4).toNat = 0 := by omega
      rw [hk]
      constructor
      · omega
      · rfl
  | cons p ps ih =>
    intro s ha0 ha1 hsign hfit
    have hd := hsign p (List.mem_cons_self _ _)
    have hsign1 : ∀ q ∈ ps, 0 < sg * q.d := fun q hq => hsign q (List.mem_cons_of_mem _ hq)
    have hD := drained_sign sg hs ps hsign1
    have hhead := hfit [] p ps rfl
    have htail : ∀ pre q post, ps = pre ++ q :: post →
        INT32_MIN ≤ sg * ((sg * (s.accum + drained (p :: pre))) % 4) + q.d ∧
        sg * ((sg * (s.accum + drained (p :: pre))) % 4) + q.d ≤ INT32_MAX :=
      fun pre q post h => hfit (p :: pre) q post (by rw [h]; rfl)
    simp only [drained_cons] at htail
    simp only [drained, List.map_nil, List.sum_nil, add_zero] at hhead
    have hfit0 : INT32_MIN ≤ s.accum + p.d ∧ s.accum + p.d ≤ INT32_MAX := by
      rcases hs with rfl | rfl
      · simp only [one_mul] at ha0 ha1 hhead; omega
      · simp only [neg_mul, one_mul] at ha0 ha1 hhead; omega
    obtain ⟨c1, c2⟩ := pollCycleWith_signed n v sg hs s p ha0 ha1 hd hfit0
    have hr0 : 0 ≤ sg * (pollCycleWith n v s p).1.accum := by
      rw [c1]
      rcases hs with rfl | rfl
      · simp only [one_mul]; omega
      · simp only [neg_mul, one_mul]; omega
    have hr1 : sg * (pollCycleWith n v s p).1.accum < 4 := by
      rw [c1]
      rcases hs with rfl | rfl
      · simp only [one_mul]; omega
      · simp only [neg_mul, one_mul]; omega
    have hfit1 : ∀ pre q post, ps = pre ++ q :: post →
        INT32_MIN ≤ sg * ((sg * ((pollCycleWith n v s p).1.accum + drained pre)) % 4) + q.d ∧
        sg * ((sg * ((pollCycleWith n v s p).1.accum + drained pre)) % 4) + q.d ≤ INT32_MAX := by
      intro pre q post h
      have h1 := htail pre q post h
      have he : (sg * ((pollCycleWith n v s p).1.accum + drained pre)) % 4
          = (sg * (s.accum + (p.d + drained pre))) % 4 := by
        rw [c1]
        rcases hs with rfl | rfl
        · simp only [one_mul]; omega
        · simp only [neg_mul, one_mul]; omega
      rw [he]
      exact h1
    obtain ⟨i1, i2⟩ := ih (pollCycleWith n v s p).1 hr0 hr1 hsign1 hfit1
    simp only [runCyclesWith, drained_cons]
    rw [i1, movesOf_append, c2, i2, List.append_replicate_replicate, c1]
    rcases hs with rfl | rfl
    · simp only [one_mul] at ha0 ha1 hd hD ⊢
      constructor
      · omega
      · congr 1; omega
    · simp only [neg_mul, one_mul] at ha0 ha1 hd hD ⊢
      constructor
      · omega
      · congr 1; omega

/-- A remainder of `1` followed by a drained batch of `2^31 - 1`: the sum leaves the 32-bit
range, `accum` becomes `-2^31`, and only the second loop runs, `k = 2^29` times. -/
theorem overflow_run (k : Nat) (hk : ((-(-2147483648 : Int)) / 4).toNat = k) (s : State)
    (hs : s.accum = 0) (b1 b2 : Bool) (t1 t2 : Nat) :
    (runCycles s [⟨1, b1, t1⟩, ⟨2147483647, b2, t2⟩]).1.accum = 0 ∧
    movesOf (runCycles s [⟨1, b1, t1⟩, ⟨2147483647, b2, t2⟩]).2 = List.replicate k (-1) := by
  obtain ⟨t1a, t1m⟩ := pollCycleWith_trace MENU_LEN MAX_LINES s ⟨1, b1, t1⟩
  obtain ⟨t2a, t2m⟩ := pollCycleWith_trace MENU_LEN MAX_LINES
    (pollCycleWith MENU_LEN MAX_LINES s ⟨1, b1, t1⟩).1 ⟨2147483647, b2, t2⟩
  have w1 : wrap32 (0 + 1) = 1 := by decide
  have k1 : ((1 : Int) / 4).toNat = 0 := by decide
  have k2 : ((-(1 : Int)) / 4).toNat = 0 := by decide
  have n1 : ((1 : Int) ≠ 0) = True := by decide
  have n2 : ((2147483647 : Int) ≠ 0) = True := by decide
  simp only [hs, w1, k1, k2, n1, if_true, List.replicate_zero, List.append_nil] at t1a t1m
  have c1 : (1 : Int) - 4 * ((0 : Nat) : Int) + 4 * ((0 : Nat) : Int) = 1 := by decide
  rw [c1] at t1a
  have w2 : wrap32 (1 + 2147483647) = -2147483648 := by decide
  have k3 : (((-2147483648 : Int)) / 4).toNat = 0 := by decide
  simp only [t1a, w2, k3, hk, n2, if_true, List.replicate_zero, List.nil_append] at t2a t2m
  have c2 : (-2147483648 : Int) - 4 * ((0 : Nat) : Int) + 4 * (k : Int) = 0 := by omega
  rw [c2] at t2a
  simp only [runCycles, runCyclesWith, movesOf_append, movesOf, List.append_nil]
  rw [t1m, t2m, t2a]
  exact ⟨rfl, List.nil_append _⟩

/-- The prefix before position `i` and the element at position `i` of a list split
as `pre ++ p :: post` with `i = pre.length`. -/
theorem split_at_length (polls pre post : List Poll) (p : Poll) (h : polls = pre ++ p :: post) :
    ∃ hi : pre.length < polls.length,
      polls.take pre.length = pre ∧ polls.get ⟨pre.length, hi⟩ = p := by
  subst h
  refine ⟨by simp, by simp, ?_⟩
  rw [List.get_eq_getElem]
  simp only
  rw [List.getElem_append_right (le_refl _)]
  simp

/-- One poll cycle with a positive batch, from a state inside the invariant with a
remainder in `[0, 4)`: remainder, moves, saturated cursor and window. -/
theorem pollCycleWith_up (n v : Int) (hn1 : 1 ≤ n) (hn : n ≤ INT32_MAX) (hv1 : 1 ≤ v)
    (hv : v ≤ INT32_MAX) (s : State) (hinv : MenuInv n v s) (ha0 : 0 ≤ s.accum)
    (ha1 : s.accum < 4) (p : Poll) (hd0 : 0 < p.d) (hd1 : p.d ≤ INT32_MAX - 3) :
    (pollCycleWith n v s p).1.accum = (s.accum + p.d) % 4 ∧
    movesOf (pollCycleWith n v s p).2 = List.replicate ((s.accum + p.d) / 4).toNat 1 ∧
    (pollCycleWith n v s p).1.cursor = min (s.cursor + (s.accum + p.d) / 4) (n - 1) ∧
    (pollCycleWith n v s p).1.windowStart
      = max s.windowStart ((pollCycleWith n v s p).1.cursor - (v - 1)) := by
  obtain ⟨⟨h1, h2⟩, ⟨h3, h4⟩, h5, h6⟩ := hinv
  have hfit : INT32_MIN ≤ s.accum + p.d ∧ s.accum + p.d ≤ INT32_MAX := by
    simp only [INT32_MIN, INT32_MAX] at hd1 ⊢
    omega
  obtain ⟨a1, a2⟩ := pollCycleWith_signed n v 1 (Or.inl rfl) s p (by omega) (by omega)
    (by omega) hfit
  simp only [one_mul] at a1 a2
  obtain ⟨c1, c2⟩ := pollCycleWith_closed n v hn s p h1 (by omega)
  have hne : p.d ≠ 0 := by omega
  rw [if_pos hne, wrap32_of_range _ hfit.1 hfit.2] at c1 c2
  rw [← c1] at c2
  have hcur : (pollCycleWith n v s p).1.cursor = min (s.cursor + (s.accum + p.d) / 4) (n - 1) := by
    rw [c1]
    omega
  refine ⟨a1, a2, hcur, ?_⟩
  rw [c2, updateWindow_exact n v _ s.windowStart hn hv1 hv (by omega) (by omega) h5 h6]
  split_ifs <;> omega

theorem le_drained (polls : List Poll) (hpos : ∀ p ∈ polls, 0 < p.d) :
    0 ≤ drained polls ∧ ∀ p ∈ polls, p.d ≤ drained polls := by
  induction polls with
  | nil => simp [drained]
  | cons q qs ih =>
    have hq := hpos q (List.mem_cons_self _ _)
    obtain ⟨i1, i2⟩ := ih (fun r hr => hpos r (List.mem_cons_of_mem _ hr))
    rw [drained_cons]
    refine ⟨by omega, ?_⟩
    intro r hr
    rcases List.mem_cons.1 hr with rfl | hr
    · omega
    · have := i2 r hr
      omega

/-- A run of poll cycles with positive batches, from a state inside the invariant with a
remainder in `[0, 4)`: the remainder, the moves, the saturated cursor, and the window, which
only ever moves as far as the cursor forces it. -/
theorem runCyclesWith_up (n v : Int) (hn1 : 1 ≤ n) (hn : n ≤ INT32_MAX) (hv1 : 1 ≤ v)
    (hv : v ≤ INT32_MAX) (polls : List Poll) :
    ∀ s : State, MenuInv n v s → 0 ≤ s.accum → s.accum < 4 →
      (∀ p ∈ polls, 0 < p.d ∧ p.d ≤ INT32_MAX - 3) →
      (runCyclesWith n v s polls).1.accum = (s.accum + drained polls) % 4 ∧
      movesOf (runCyclesWith n v s polls).2
        = List.replicate ((s.accum + drained polls) / 4).toNat 1 ∧
      (runCyclesWith n v s polls).1.cursor
        = min (s.cursor + (s.accum + drained polls) / 4) (n - 1) ∧
      (runCyclesWith n v s polls).1.windowStart
        = max s.windowStart ((runCyclesWith n v s polls).1.cursor - (v - 1)) := by
  induction polls with
  | nil =>
    intro s hinv ha0 ha1 _
    obtain ⟨⟨h1, h2⟩, ⟨h3, h4⟩, h5, h6⟩ := hinv
    simp only [runCyclesWith, drained, List.map_nil, List.sum_nil, add_zero, movesOf]
    have hk : (s.accum / 4).toNat = 0 := by omega
    rw [hk]
    refine ⟨by omega, rfl, by omega, by omega⟩
  | cons p ps ih =>
    intro s hinv ha0 ha1 hb
    have hp := hb p (List.mem_cons_self _ _)
    have hb1 : ∀ q ∈ ps, 0 < q.d ∧ q.d ≤ INT32_MAX - 3 :=
      fun q hq => hb q (List.mem_cons_of_mem _ hq)
    have hD := (le_drained ps (fun q hq => (hb1 q hq).1)).1
    obtain ⟨s1, s2, s3, s4⟩ := pollCycleWith_up n v hn1 hn hv1 hv s hinv ha0 ha1 p hp.1 hp.2
    have hinv1 : MenuInv n v (pollCycleWith n v s p).1 := by
      unfold pollCycleWith
      apply loopWith_inv n v hn1 hn hv1 hv
      exact hinv
    obtain ⟨i1, i2, i3, i4⟩ := ih (pollCycleWith n v s p).1 hinv1 (by omega) (by omega) hb1
    obtain ⟨⟨h1, h2⟩, ⟨h3, h4⟩, h5, h6⟩ := hinv
    simp only [runCyclesWith, drained_cons]
    rw [i4, i1, movesOf_append, s2, i2, List.append_replicate_replicate, i3, s1, s3, s4, s3]
    refine ⟨by omega, ?_, by omega, by omega⟩
    congr 1
    omega

/-- The rotary half of `loop` leaves `enc_delta`, `enc_state` and the button fields alone. -/
theorem loopRotary_frame (n v : Int) (s : State) (d : Int) :
    (loopRotary n v s d).1.enc_delta = s.enc_delta ∧
    (loopRotary n v s d).1.enc_state = s.enc_state ∧
    (loopRotary n v s d).1.btnPrev = s.btnPrev ∧
    (loopRotary n v s d).1.btnLastChangeMs = s.btnLastChangeMs := by
  unfold loopRotary
  exact ⟨rfl, rfl, rfl, rfl⟩

/-- After `loop` nothing is left to drain. -/
theorem loopWith_drained (n v : Int) (s : State) (b : Bool) (t : Nat) :
    (loopWith n v s b t).1.enc_delta = 0 := by
  rw [loopWith_eq]
  simp only
  obtain ⟨-, -, -, e4, -⟩ := loopButton_cursor
    (if s.enc_delta ≠ 0 then loopRotary n v { s with enc_delta := 0 } s.enc_delta
      else ({ s with enc_delta := 0 }, [])).1 b t
  rw [e4]
  split
  · exact (loopRotary_frame n v _ _).1
  · rfl

/-- The remainder stays below one detent over any run of poll cycles. -/
theorem runCyclesWith_accum_bound (n v : Int) (polls : List Poll) :
    ∀ s : State, -4 < s.accum → s.accum < 4 →
      -4 < (runCyclesWith n v s polls).1.accum ∧ (runCyclesWith n v s polls).1.accum < 4 := by
  induction polls with
  | nil => intro s h1 h2; exact ⟨h1, h2⟩
  | cons p ps ih =>
    intro s h1 h2
    simp only [runCyclesWith]
    obtain ⟨e, -⟩ := pollCycleWith_trace n v s p
    apply ih
    · rw [e]; split <;> omega
    · rw [e]; split <;> omega

/-- Consecutive runs of `loop` that drain nothing leave remainder, cursor and window alone. -/
theorem loopTimes_idle (inputs : List (Bool × Nat)) :
    ∀ s : State, s.enc_delta = 0 →
      (loopTimes s inputs).accum = s.accum ∧ (loopTimes s inputs).cursor = s.cursor ∧
      (loopTimes s inputs).windowStart = s.windowStart := by
  induction inputs with
  | nil => intro s _; exact ⟨rfl, rfl, rfl⟩
  | cons bt rest ih =>
    intro s hd
    simp only [loopTimes]
    have h0 : (loop s bt.1 bt.2).1.enc_delta = 0 := loopWith_drained _ _ s bt.1 bt.2
    obtain ⟨i1, i2, i3⟩ := ih (loop s bt.1 bt.2).1 h0
    have hl : loop s bt.1 bt.2 = loopButton s bt.1 bt.2 := loopWith_idle _ _ s hd bt.1 bt.2
    obtain ⟨e1, e2, e3, -⟩ := loopButton_cursor s bt.1 bt.2
    rw [i1, i2, i3, hl]
    exact ⟨e3, e1, e2⟩

/-- The button fields and the selections after one poll cycle. -/
theorem pollCycleWith_button (n v : Int) (s : State) (p : Poll) :
    (pollCycleWith n v s p).1.btnPrev
      = (if p.btnNow ≠ s.btnPrev ∧ sub32 p.now s.btnLastChangeMs > BTN_DEBOUNCE_MS
         then p.btnNow else s.btnPrev) ∧
    (pollCycleWith n v s p).1.btnLastChangeMs
      = (if p.btnNow ≠ s.btnPrev ∧ sub32 p.now s.btnLastChangeMs > BTN_DEBOUNCE_MS
         then p.now else s.btnLastChangeMs) ∧
    selectionsOf (pollCycleWith n v s p).2
      = (if (p.btnNow ≠ s.btnPrev ∧ sub32 p.now s.btnLastChangeMs > BTN_DEBOUNCE_MS) ∧
            p.btnNow = false
         then [menuItem (pollCycleWith n v s p).1.cursor] else []) := by
  have key : ∀ r : State × List Event, r.1.btnPrev = s.btnPrev →
      r.1.btnLastChangeMs = s.btnLastChangeMs → selectionsOf r.2 = [] →
      (loopButton r.1 p.btnNow p.now).1.btnPrev
        = (if p.btnNow ≠ s.btnPrev ∧ sub32 p.now s.btnLastChangeMs > BTN_DEBOUNCE_MS
           then p.btnNow else s.btnPrev) ∧
      (loopButton r.1 p.btnNow p.now).1.btnLastChangeMs
        = (if p.btnNow ≠ s.btnPrev ∧ sub32 p.now s.btnLastChangeMs > BTN_DEBOUNCE_MS
           then p.now else s.btnLastChangeMs) ∧
      selectionsOf (r.2 ++ (loopButton r.1 p.btnNow p.now).2)
        = (if (p.btnNow ≠ s.btnPrev ∧ sub32 p.now s.btnLastChangeMs > BTN_DEBOUNCE_MS) ∧
              p.btnNow = false
           then [menuItem (loopButton r.1 p.btnNow p.now).1.cursor] else []) := by
    intro r hp hl hsel
    obtain ⟨c1, c2, c3⟩ := loopButton_closed r.1 p.btnNow p.now
    obtain ⟨cc, -⟩ := loopButton_cursor r.1 p.btnNow p.now
    rw [hp, hl] at c1 c2 c3
    rw [c1, c2, selectionsOf_append, hsel, c3, cc]
    simp only [List.nil_append, and_self]
  unfold pollCycleWith
  rw [loopWith_eq]
  exact key (if p.d ≠ 0 then loopRotary n v { s with enc_delta := 0 } p.d
      else ({ s with enc_delta := 0 }, []))
    (by split <;> rfl) (by split <;> rfl)
    (by
      split
      · exact loopRotary_selections _ _ _ _
      · rfl)

/-- A poll that samples the reported level, or is taken at most `BTN_DEBOUNCE_MS` after the
last reported change, reports nothing and leaves the button fields alone. -/
theorem pollCycle_quiet (s : State) (p : Poll)
    (h : p.btnNow = s.btnPrev ∨ sub32 p.now s.btnLastChangeMs ≤ BTN_DEBOUNCE_MS) :
    edgeFired s p = false ∧ (pollCycle s p).1.btnPrev = s.btnPrev ∧
    (pollCycle s p).1.btnLastChangeMs = s.btnLastChangeMs ∧
    selectionsOf (pollCycle s p).2 = [] := by
  obtain ⟨b1, b2, b3⟩ := pollCycleWith_button MENU_LEN MAX_LINES s p
  have hc : ¬ (p.btnNow ≠ s.btnPrev ∧ sub32 p.now s.btnLastChangeMs > BTN_DEBOUNCE_MS) := by
    rintro ⟨h1, h2⟩
    rcases h with h | h
    · exact h1 h
    · omega
  rw [if_neg hc] at b1 b2
  rw [if_neg (fun hh => hc hh.1)] at b3
  unfold edgeFired pollCycle
  refine ⟨?_, b1, b2, b3⟩
  rw [b1]
  simp

/-- A poll that samples a level other than the reported one more than `BTN_DEBOUNCE_MS`
after the last reported change reports an edge. -/
theorem pollCycle_fires (s : State) (p : Poll) (h1 : p.btnNow ≠ s.btnPrev)
    (h2 : sub32 p.now s.btnLastChangeMs > BTN_DEBOUNCE_MS) :
    edgeFired s p = true ∧ (pollCycle s p).1.btnPrev = p.btnNow ∧
    (pollCycle s p).1.btnLastChangeMs = p.now := by
  obtain ⟨b1, b2, -⟩ := pollCycleWith_button MENU_LEN MAX_LINES s p
  rw [if_pos ⟨h1, h2⟩] at b1 b2
  unfold edgeFired pollCycle
  refine ⟨?_, b1, b2⟩
  rw [b1]
  simpa using h1

/-- Over polls that each sample the reported level or fall within `BTN_DEBOUNCE_MS` of the
last reported change, nothing is reported. -/
theorem runCycles_quiet (polls : List Poll) :
    ∀ s : State,
      (∀ p ∈ polls, p.btnNow = s.btnPrev ∨ sub32 p.now s.btnLastChangeMs ≤ BTN_DEBOUNCE_MS) →
      edgeCount s polls = 0 ∧ (runCycles s polls).1.btnPrev = s.btnPrev ∧
      (runCycles s polls).1.btnLastChangeMs = s.btnLastChangeMs ∧
      selectionsOf (runCycles s polls).2 = [] := by
  induction polls with
  | nil => intro s _; exact ⟨rfl, rfl, rfl, rfl⟩
  | cons p ps ih =>
    intro s h
    obtain ⟨q1, q2, q3, q4⟩ := pollCycle_quiet s p (h p (List.mem_cons_self _ _))
    obtain ⟨i1, i2, i3, i4⟩ := ih (pollCycle s p).1 (by
      intro r hr
      rw [q2, q3]
      exact h r (List.mem_cons_of_mem _ hr))
    have hrun : runCycles s (p :: ps)
        = ((runCycles (pollCycle s p).1 ps).1,
            (pollCycle s p).2 ++ (runCycles (pollCycle s p).1 ps).2) := rfl
    rw [hrun]
    simp only [edgeCount, q1, i1, selectionsOf_append, q4, i4, i2, i3, q2, q3]
    simp

/-- Edges over a run split in two. -/
theorem edgeCount_append (xs ys : List Poll) :
    ∀ s : State, edgeCount s (xs ++ ys) = edgeCount s xs + edgeCount (runCycles s xs).1 ys := by
  induction xs with
  | nil => intro s; simp [edgeCount, runCycles, runCyclesWith]
  | cons p ps ih =>
    intro s
    have hrun : (runCycles s (p :: ps)).1 = (runCycles (pollCycle s p).1 ps).1 := rfl
    rw [List.cons_append]
    simp only [edgeCount]
    rw [ih (pollCycle s p).1, hrun]
    omega

theorem sub32_succ (t i last : Nat) :
    sub32 ((t + (i + 1)) % 4294967296) last
      = (sub32 ((t + i) % 4294967296) last + 1) % 4294967296 := by
  unfold sub32
  omega

theorem sub32_mod (t last : Nat) : sub32 ((t + 0) % 4294967296) last = sub32 t last := by
  unfold sub32
  omega

theorem holdPolls_level (ds : Nat → Int) (level : Bool) (t : Nat) (n : Nat) :
    ∀ (i : Nat) (p : Poll), p ∈ holdPolls ds level t i n → p.btnNow = level := by
  induction n with
  | zero => intro i p hp; simp [holdPolls] at hp
  | succ n ih =>
    intro i p hp
    simp only [holdPolls, List.mem_cons] at hp
    rcases hp with rfl | hp
    · rfl
    · exact ih (i + 1) p hp

/-- While the sampled level equals the reported one no edge is reported. -/
theorem holdPolls_same (ds : Nat → Int) (level : Bool) (t : Nat) (n i : Nat) (s : State)
    (h : s.btnPrev = level) : edgeCount s (holdPolls ds level t i n) = 0 := by
  apply (runCycles_quiet _ s _).1
  intro p hp
  left
  rw [h]
  exact holdPolls_level ds level t n i p hp

/-- A level other than the reported one, held over `n >= 1` consecutive milliseconds of
which the first is `e` after the last reported change: if `e > 30` or `e + n >= 32` exactly
one edge is reported. -/
theorem holdPolls_fire (ds : Nat → Int) (level : Bool) (t : Nat) (n : Nat) :
    ∀ (i : Nat) (s : State), s.btnPrev ≠ level → 1 ≤ n →
      (30 < sub32 ((t + i) % 4294967296) s.btnLastChangeMs ∨
        32 ≤ sub32 ((t + i) % 4294967296) s.btnLastChangeMs + n) →
      edgeCount s (holdPolls ds level t i n) = 1 := by
  induction n with
  | zero => intro i s _ h1 _; omega
  | succ n ih =>
    intro i s hne _ he
    simp only [holdPolls, edgeCount]
    by_cases hfire : 30 < sub32 ((t + i) % 4294967296) s.btnLastChangeMs
    · obtain ⟨f1, f2, -⟩ := pollCycle_fires s ⟨ds i, level, (t + i) % 4294967296⟩
        (fun h => hne h.symm) (by simpa [BTN_DEBOUNCE_MS] using hfire)
      rw [f1, holdPolls_same ds level t n (i + 1) _ f2]
      rfl
    · obtain ⟨q1, q2, q3, -⟩ := pollCycle_quiet s ⟨ds i, level, (t + i) % 4294967296⟩
        (Or.inr (by simp only [BTN_DEBOUNCE_MS]; omega))
      have hs := sub32_succ t i s.btnLastChangeMs
      rw [q1, ih (i + 1) _ (by rw [q2]; exact hne) (by omega) (by rw [q3, hs]; omega)]
      rfl

theorem lutIndex_lt (enc_state newAB : Nat) : lutIndex enc_state newAB < 16 := by
  unfold lutIndex
  have h1 : enc_state &&& 0x03 ≤ 3 := Nat.and_le_right
  have h2 : newAB &&& 0x03 ≤ 3 := Nat.and_le_right
  generalize enc_state &&& 0x03 = a at h1
  generalize newAB &&& 0x03 = b at h2
  interval_cases a <;> interval_cases b <;> decide

/-- Every entry of the table is `-1`, `0` or `1`. -/
theorem lutStep_range (idx : Nat) (h : idx < 16) :
    ∃ step : Int, lutStep idx = some step ∧ (step = -1 ∨ step = 0 ∨ step = 1) := by
  interval_cases idx <;> simp [lutStep, QDEC_LUT]

/-- The interrupt handler in terms of the table entry it reads. -/
theorem encoderISR_step (s : State) (newAB : Nat) (step : Int)
    (h : lutStep (lutIndex s.enc_state newAB) = some step) :
    encoderISR s newAB = some
      { s with
        enc_state := newAB &&& 0x03,
        enc_delta := if step ≠ 0 then wrap32 (s.enc_delta + step) else s.enc_delta } := by
  unfold encoderISR
  simp only [h]
  split <;> rfl

/-- One valid sample: the table entry is the phase advance modulo 4. -/
theorem lut_phase : ∀ prev < 4, ∀ x < 4, (x = prev ∨ oneBitApart prev x) →
    (lutStep (lutIndex prev x)).map (fun k => k % 4) = some ((phase x - phase prev) % 4) ∧
    x &&& 0x03 = x := by
  decide

/-- Adjacent line states: the entries of a transition and of its reverse are `1` and `-1`
in some order. -/
theorem lut_reverse : ∀ prev < 4, ∀ x < 4, oneBitApart prev x →
    ((lutStep (lutIndex prev x) = some 1 ∧ lutStep (lutIndex x prev) = some (-1)) ∨
     (lutStep (lutIndex prev x) = some (-1) ∧ lutStep (lutIndex x prev) = some 1)) ∧
    x &&& 0x03 = x ∧ prev &&& 0x03 = prev := by
  intro prev hp x hx
  interval_cases prev <;> interval_cases x <;> decide

/-- Two samples in a row, in terms of the two table entries read. -/
theorem runISR_two (s : State) (a b : Nat) (k1 k2 : Int)
    (h1 : lutStep (lutIndex s.enc_state a) = some k1)
    (h2 : lutStep (lutIndex (a &&& 0x03) b) = some k2) :
    runISR s [a, b] = some
      { s with
        enc_state := b &&& 0x03,
        enc_delta :=
          if k2 ≠ 0 then
            wrap32 ((if k1 ≠ 0 then wrap32 (s.enc_delta + k1) else s.enc_delta) + k2)
          else (if k1 ≠ 0 then wrap32 (s.enc_delta + k1) else s.enc_delta) } := by
  have e1 := encoderISR_step s a k1 h1
  have e2 := encoderISR_step
    { s with enc_state := a &&& 0x03,
             enc_delta := if k1 ≠ 0 then wrap32 (s.enc_delta + k1) else s.enc_delta }
    b k2 h2
  simp only [runISR, e1, e2]

theorem encoderISR_phase (s : State) (x : Nat) (hs : s.enc_state < 4) (hx : x < 4)
    (hv : x = s.enc_state ∨ oneBitApart s.enc_state x) :
    ∃ s1, encoderISR s x = some s1 ∧ s1.enc_state = x ∧
      (s1.enc_delta - s.enc_delta) % 4 = (phase x - phase s.enc_state) % 4 := by
  obtain ⟨hm, hx3⟩ := lut_phase s.enc_state hs x hx hv
  obtain ⟨step, hstep, -⟩ := lutStep_range _ (lutIndex_lt s.enc_state x)
  rw [hstep] at hm
  simp only [Option.map_some', Option.some.injEq] at hm
  refine ⟨_, encoderISR_step s x step hstep, hx3, ?_⟩
  simp only
  split
  · unfold wrap32
    omega
  · omega

theorem runISR_phase (samples : List Nat) :
    ∀ s : State, s.enc_state < 4 → validChain s.enc_state samples →
      ∃ s1, runISR s samples = some s1 ∧ s1.enc_state = samples.getLastD s.enc_state ∧
        (s1.enc_delta - s.enc_delta) % 4
          = (phase (samples.getLastD s.enc_state) - phase s.enc_state) % 4 := by
  induction samples with
  | nil => intro s _ _; exact ⟨s, rfl, rfl, by simp⟩
  | cons x xs ih =>
    intro s hs hv
    obtain ⟨hx, hstep, hrest⟩ := hv
    obtain ⟨s1, e1, e2, e3⟩ := encoderISR_phase s x hs hx hstep
    obtain ⟨s2, f1, f2, f3⟩ := ih s1 (by rw [e2]; exact hx) (by rw [e2]; exact hrest)
    rw [e2] at f2 f3
    refine ⟨s2, ?_, ?_, ?_⟩
    · simp only [runISR, e1]
      exact f1
    · rw [f2, List.getLastD_cons]
    · rw [List.getLastD_cons]
      omega

theorem truncToInt_of_nonneg (q : ℚ) (h : 0 ≤ q) : truncToInt q = ⌊q⌋ := by
  unfold truncToInt
  rw [if_pos h]

theorem truncToInt_natCast (k : Nat) : truncToInt (k : ℚ) = (k : Int) := by
  rw [truncToInt_of_nonneg _ (by positivity)]
  exact Int.floor_natCast k

/-- C1. Menu invariant: from `cursor = 0`, `windowStart = 0`, remainder `0` (the other
globals arbitrary), after any sequence of poll cycles of `loop()`, whatever deltas were
drained and whatever the button samples were, `0 <= cursor < MENU_LEN`,
`windowStart <= cursor <= windowStart + MAX_LINES - 1` and
`0 <= windowStart <= max 0 (MENU_LEN - MAX_LINES)`, with `MENU_LEN = 6`, `MAX_LINES = 5`. -/
theorem C1_menu_invariant (s : State) (polls : List Poll) :
    MENU_LEN = 6 ∧ MAX_LINES = 5 ∧
    MenuInv MENU_LEN MAX_LINES
      (runCycles { s with cursor := 0, windowStart := 0, accum := 0 } polls).1 := by
  refine ⟨MENU_LEN_eq, MAX_LINES_eq, ?_⟩
  unfold runCycles
  apply runCyclesWith_inv
  · decide
  · decide
  · decide
  · decide
  · simp [MenuInv, MENU_LEN_eq, MAX_LINES_eq]

/-- C2. For every pair of 2-bit line states that differ in exactly one bit the table
entry `QDEC_LUT[(prev<<2)|cur]` is `+1` or `-1`; there are eight such pairs, four with
entry `+1` and four with entry `-1`; the four transitions of the cycle
`00 -> 01 -> 11 -> 10 -> 00` all carry `-1`, the four of the reverse cycle all carry `+1`,
and reversing any such transition negates its entry. -/
theorem C2_valid_transitions :
    (∀ prev cur : Fin 4, oneBitApart prev cur →
      lutAt prev cur = some 1 ∨ lutAt prev cur = some (-1)) ∧
    (Finset.univ.filter (fun p : Fin 4 × Fin 4 => oneBitApart p.1 p.2)).card = 8 ∧
    (Finset.univ.filter (fun p : Fin 4 × Fin 4 =>
      oneBitApart p.1 p.2 ∧ lutAt p.1 p.2 = some 1)).card = 4 ∧
    (Finset.univ.filter (fun p : Fin 4 × Fin 4 =>
      oneBitApart p.1 p.2 ∧ lutAt p.1 p.2 = some (-1))).card = 4 ∧
    (lutAt 0 1 = some (-1) ∧ lutAt 1 3 = some (-1) ∧ lutAt 3 2 = some (-1) ∧
      lutAt 2 0 = some (-1)) ∧
    (lutAt 1 0 = some 1 ∧ lutAt 3 1 = some 1 ∧ lutAt 2 3 = some 1 ∧ lutAt 0 2 = some 1) ∧
    (∀ prev cur : Fin 4, oneBitApart prev cur →
      ∃ x : Int, lutAt prev cur = some x ∧ lutAt cur prev = some (-x)) := by
  refine ⟨by decide, by decide, by decide, by decide, by decide, by decide, ?_⟩
  intro prev cur h
  fin_cases prev <;> fin_cases cur <;> revert h <;> simp [oneBitApart] <;> decide

theorem C2_valid_transitions_witness :
    oneBitApart (1 : Fin 4) (3 : Fin 4) ∧
    (lutAt (1 : Fin 4) (3 : Fin 4) = some 1 ∨ lutAt (1 : Fin 4) (3 : Fin 4) = some (-1)) :=
  ⟨by decide, C2_valid_transitions.1 1 3 (by decide)⟩

/-- C3. For every pair of 2-bit line states that are equal or differ in both bits the
table entry `QDEC_LUT[(prev<<2)|cur]` is `0`, and `encoderISR`, run with those two line
states as the low bits of `enc_state` and of the sample, leaves `enc_delta` unchanged. -/
theorem C3_invalid_transitions (prev cur : Nat) (hp : prev < 4) (hc : cur < 4)
    (h : prev = cur ∨ twoBitsApart prev cur) :
    lutAt prev cur = some 0 ∧
    ∀ (s : State) (newAB : Nat), s.enc_state &&& 0x03 = prev → newAB &&& 0x03 = cur →
      ∃ s1, encoderISR s newAB = some s1 ∧ s1.enc_delta = s.enc_delta := by
  have h0 : lutAt prev cur = some 0 := by
    interval_cases prev <;> interval_cases cur <;> revert h <;> decide
  refine ⟨h0, ?_⟩
  intro s newAB hs hn
  unfold lutAt at h0
  simp [encoderISR, lutIndex, hs, hn, h0]

theorem C3_invalid_transitions_witness :
    lutAt 1 2 = some 0 ∧
    ∀ (s : State) (newAB : Nat), s.enc_state &&& 0x03 = 1 → newAB &&& 0x03 = 2 →
      ∃ s1, encoderISR s newAB = some s1 ∧ s1.enc_delta = s.enc_delta :=
  C3_invalid_transitions 1 2 (by decide) (by decide) (Or.inr (by decide))

/-- C4, as stated, fails: with remainder `0`, the two positive batches `1` and
`2147483647` (each a value of `int32_t`, `2^31` raw steps in all) make `accum + d` leave the
32-bit range; the code then emits `2^29` moves in direction `-1`, not `+1`. -/
theorem C4_overflow_counterexample :
    (∀ p ∈ [(⟨1, true, 0⟩ : Poll), ⟨2147483647, true, 0⟩],
      0 < 1 * p.d ∧ INT32_MIN ≤ p.d ∧ p.d ≤ INT32_MAX) ∧
    (initState 0).accum = 0 ∧
    drained [⟨1, true, 0⟩, ⟨2147483647, true, 0⟩] = 2147483648 ∧
    movesOf (runCycles (initState 0) [⟨1, true, 0⟩, ⟨2147483647, true, 0⟩]).2
      = List.replicate 536870912 (-1) ∧
    ¬ (movesOf (runCycles (initState 0) [⟨1, true, 0⟩, ⟨2147483647, true, 0⟩]).2
        = List.replicate ((1 * drained [⟨1, true, 0⟩, ⟨2147483647, true, 0⟩]) / 4).toNat 1 ∧
       (runCycles (initState 0) [⟨1, true, 0⟩, ⟨2147483647, true, 0⟩]).1.accum
        = 1 * ((1 * drained [⟨1, true, 0⟩, ⟨2147483647, true, 0⟩]) % 4)) := by
  have hrun := overflow_run 536870912 (by decide) (initState 0) rfl true true 0 0
  refine ⟨by decide, rfl, by decide, hrun.2, ?_⟩
  rintro ⟨h, -⟩
  rw [hrun.2] at h
  have hmem : (-1 : Int) ∈ List.replicate 536870912 (-1 : Int) :=
    List.mem_replicate.2 ⟨by decide, rfl⟩
  rw [h] at hmem
  have := List.eq_of_mem_replicate hmem
  omega

/-- C4 (amended). Detent bucketing: starting with remainder `accum = 0`, for either sign
`sg` and every sequence of non-zero drained batches of sign `sg`, one per poll cycle, with
`N = sg * drained polls` raw steps in all, such that at every poll the remainder pending
there, `sg * (steps so far mod 4)`, plus the batch fits in `int32_t`: the cursor moves
emitted by the two `while` loops are `N / 4` moves, all in direction `sg`, and the
remainder left in `accum` is `sg * (N mod 4)`. -/
theorem C4_detent_bucketing (sg : Int) (hs : sg = 1 ∨ sg = -1) (polls : List Poll)
    (hsign : ∀ p ∈ polls, 0 < sg * p.d)
    (hfit : ∀ i : Fin polls.length,
      INT32_MIN ≤ sg * ((sg * drained (polls.take i)) % 4) + (polls.get i).d ∧
      sg * ((sg * drained (polls.take i)) % 4) + (polls.get i).d ≤ INT32_MAX)
    (s : State) (hacc : s.accum = 0) :
    movesOf (runCycles s polls).2 = List.replicate ((sg * drained polls) / 4).toNat sg ∧
    (runCycles s polls).1.accum = sg * ((sg * drained polls) % 4) := by
  have h := runCyclesWith_signed MENU_LEN MAX_LINES sg hs polls s
    (by rw [hacc]; simp) (by rw [hacc]; simp) hsign
    (by
      intro pre p post hsplit
      obtain ⟨hi, e1, e2⟩ := split_at_length polls pre post p hsplit
      have := hfit ⟨pre.length, hi⟩
      simp only [e1, e2] at this
      rw [hacc, zero_add]
      exact this)
  rw [hacc, zero_add] at h
  exact ⟨h.2, h.1⟩

theorem C4_detent_bucketing_witness :
    movesOf (runCycles (initState 0) [⟨-7, true, 0⟩, ⟨-3, false, 5⟩, ⟨-8, false, 9⟩]).2
      = List.replicate
          ((-1 * drained [⟨-7, true, 0⟩, ⟨-3, false, 5⟩, ⟨-8, false, 9⟩]) / 4).toNat (-1) ∧
    (runCycles (initState 0) [⟨-7, true, 0⟩, ⟨-3, false, 5⟩, ⟨-8, false, 9⟩]).1.accum
      = -1 * ((-1 * drained [⟨-7, true, 0⟩, ⟨-3, false, 5⟩, ⟨-8, false, 9⟩]) % 4) :=
  C4_detent_bucketing (-1) (Or.inr rfl) [⟨-7, true, 0⟩, ⟨-3, false, 5⟩, ⟨-8, false, 9⟩]
    (by decide) (by decide) (initState 0) rfl

/-- C6. Minimal scroll: for every state satisfying the menu invariant and every new cursor
value `c` in `[0, MENU_LEN - 1]`, the window update yields `c` if `c < windowStart`,
`c - (MAX_LINES - 1)` if `c >= windowStart + MAX_LINES`, and the old `windowStart`
otherwise; the result shows the cursor and is the closest to the old `windowStart` among
all `x` with `x <= c <= x + MAX_LINES - 1`; and the window a poll cycle of `loop()` leaves
is this update applied to the cursor it leaves. -/
theorem C6_minimal_scroll (s : State) (hinv : MenuInv MENU_LEN MAX_LINES s) (c : Int)
    (hc0 : 0 ≤ c) (hc1 : c ≤ MENU_LEN - 1) :
    (updateWindow MAX_LINES c s.windowStart =
      if c < s.windowStart then c
      else if c ≥ s.windowStart + MAX_LINES then c - (MAX_LINES - 1)
      else s.windowStart) ∧
    (updateWindow MAX_LINES c s.windowStart ≤ c ∧
      c ≤ updateWindow MAX_LINES c s.windowStart + MAX_LINES - 1) ∧
    (∀ x : Int, x ≤ c → c ≤ x + MAX_LINES - 1 →
      |updateWindow MAX_LINES c s.windowStart - s.windowStart| ≤ |x - s.windowStart|) ∧
    (∀ p : Poll, (pollCycle s p).1.cursor = c →
      (pollCycle s p).1.windowStart = updateWindow MAX_LINES c s.windowStart) := by
  obtain ⟨⟨h1, h2⟩, ⟨h3, h4⟩, h5, h6⟩ := hinv
  have hu := updateWindow_exact MENU_LEN MAX_LINES c s.windowStart (by decide) (by decide)
    (by decide) hc0 hc1 h5 h6
  have hN := MENU_LEN_eq
  have hV := MAX_LINES_eq
  refine ⟨?_, ?_, ?_, ?_⟩
  · rw [hu]
  · rw [hu]
    split_ifs <;> omega
  · intro x hx0 hx1
    rw [hu]
    split_ifs <;> rcases abs_cases (x - s.windowStart) with ⟨ha, _⟩ | ⟨ha, _⟩ <;> rw [ha] <;>
      first
        | (rcases abs_cases (c - s.windowStart) with ⟨hb, _⟩ | ⟨hb, _⟩ <;> rw [hb] <;> omega)
        | (rcases abs_cases (c - (MAX_LINES - 1) - s.windowStart) with ⟨hb, _⟩ | ⟨hb, _⟩ <;>
            rw [hb] <;> omega)
        | (simp only [sub_self, abs_zero]; omega)
  · intro p hp
    obtain ⟨e1, e2⟩ := pollCycleWith_closed MENU_LEN MAX_LINES (by decide) s p h1 (by omega)
    unfold pollCycle at hp ⊢
    by_cases hd : p.d = 0
    · simp only [hd, ne_eq, not_true_eq_false, if_false] at e1 e2
      rw [e1] at hp
      rw [e2, hu, ← hp]
      split_ifs <;> omega
    · simp only [ne_eq, hd, not_false_eq_true, if_true] at e1 e2
      rw [e2, ← e1, hp]

theorem C6_minimal_scroll_witness :
    (updateWindow MAX_LINES 5 (initState 0).windowStart =
      if (5 : Int) < (initState 0).windowStart then 5
      else if (5 : Int) ≥ (initState 0).windowStart + MAX_LINES then 5 - (MAX_LINES - 1)
      else (initState 0).windowStart) ∧
    updateWindow MAX_LINES 5 (initState 0).windowStart = 1 :=
  ⟨(C6_minimal_scroll (initState 0) (by decide) 5 (by decide) (by decide)).1, by decide⟩

/-- C7. Debounce step: for every state and every poll input `(btnNow, now)` of `loop()`,
with "fires" meaning `btnNow != btnPrev` and `(now - btnLastChangeMs) mod 2^32 > 30`:
`btnPrev` becomes `btnNow` and `btnLastChangeMs` becomes `now` when the edge fires and
both are unchanged otherwise; `btnPrev` changes exactly when the edge fires; and
`confirmSelection` is called (once, with `MENU_ITEMS[cursor]`) exactly when the edge fires
and the new level is low. -/
theorem C7_debounce_step (s : State) (btnNow : Bool) (now : Nat) :
    (loop s btnNow now).1.btnPrev
      = (if btnNow ≠ s.btnPrev ∧
            ((now : Int) - (s.btnLastChangeMs : Int)) % 4294967296 > 30
         then btnNow else s.btnPrev) ∧
    (loop s btnNow now).1.btnLastChangeMs
      = (if btnNow ≠ s.btnPrev ∧
            ((now : Int) - (s.btnLastChangeMs : Int)) % 4294967296 > 30
         then now else s.btnLastChangeMs) ∧
    ((loop s btnNow now).1.btnPrev ≠ s.btnPrev ↔
      (btnNow ≠ s.btnPrev ∧ ((now : Int) - (s.btnLastChangeMs : Int)) % 4294967296 > 30)) ∧
    selectionsOf (loop s btnNow now).2
      = (if (btnNow ≠ s.btnPrev ∧
            ((now : Int) - (s.btnLastChangeMs : Int)) % 4294967296 > 30) ∧ btnNow = false
         then [menuItem (loop s btnNow now).1.cursor] else []) := by
  have hcond : (btnNow ≠ s.btnPrev ∧ sub32 now s.btnLastChangeMs > BTN_DEBOUNCE_MS) ↔
      (btnNow ≠ s.btnPrev ∧ ((now : Int) - (s.btnLastChangeMs : Int)) % 4294967296 > 30) := by
    have := sub32_eq now s.btnLastChangeMs
    simp only [BTN_DEBOUNCE_MS]
    constructor <;> rintro ⟨h1, h2⟩ <;> exact ⟨h1, by omega⟩
  have key : ∀ r : State × List Event, r.1.btnPrev = s.btnPrev →
      r.1.btnLastChangeMs = s.btnLastChangeMs → selectionsOf r.2 = [] →
      (loopButton r.1 btnNow now).1.btnPrev
        = (if btnNow ≠ s.btnPrev ∧
              ((now : Int) - (s.btnLastChangeMs : Int)) % 4294967296 > 30
           then btnNow else s.btnPrev) ∧
      (loopButton r.1 btnNow now).1.btnLastChangeMs
        = (if btnNow ≠ s.btnPrev ∧
              ((now : Int) - (s.btnLastChangeMs : Int)) % 4294967296 > 30
           then now else s.btnLastChangeMs) ∧
      selectionsOf (r.2 ++ (loopButton r.1 btnNow now).2)
        = (if (btnNow ≠ s.btnPrev ∧
              ((now : Int) - (s.btnLastChangeMs : Int)) % 4294967296 > 30) ∧ btnNow = false
           then [menuItem (loopButton r.1 btnNow now).1.cursor] else []) := by
    intro r hp hl hsel
    obtain ⟨c1, c2, c3⟩ := loopButton_closed r.1 btnNow now
    obtain ⟨cc, -⟩ := loopButton_cursor r.1 btnNow now
    rw [hp, hl] at c1 c2 c3
    rw [c1, c2, selectionsOf_append, hsel, c3, cc]
    simp only [hcond, List.nil_append, and_self]
  have main := key (if s.enc_delta ≠ 0
      then loopRotary MENU_LEN MAX_LINES { s with enc_delta := 0 } s.enc_delta
      else ({ s with enc_delta := 0 }, []))
    (by split <;> rfl) (by split <;> rfl)
    (by
      split
      · exact loopRotary_selections _ _ _ _
      · rfl)
  unfold loop
  rw [loopWith_eq]
  refine ⟨main.1, main.2.1, ?_, main.2.2⟩
  simp only
  rw [main.1]
  constructor
  · intro h
    by_contra hc
    rw [if_neg hc] at h
    exact h rfl
  · intro h
    rw [if_pos h]
    exact h.1

/-- C8. Drain: for every value `v` of `enc_delta`, `fetchDelta()` returns `v` and leaves
`enc_delta = 0` with every other global (among them `enc_state`) unchanged; a second
`fetchDelta()` right after it returns `0` and changes nothing. -/
theorem C8_drain (s : State) (v : Int) :
    (fetchDelta { s with enc_delta := v }).1 = v ∧
    (fetchDelta { s with enc_delta := v }).2 = { s with enc_delta := 0 } ∧
    (fetchDelta { s with enc_delta := v }).2.enc_state = s.enc_state ∧
    (fetchDelta (fetchDelta { s with enc_delta := v }).2).1 = 0 ∧
    (fetchDelta (fetchDelta { s with enc_delta := v }).2).2
      = (fetchDelta { s with enc_delta := v }).2 :=
  ⟨rfl, rfl, rfl, rfl, rfl⟩

/-- C9. Select: for every state satisfying the menu invariant, a debounced press edge
(`btnPrev` high, sampled level low, more than 30 ms since the last reported change) reads
`MENU_ITEMS[cursor]` in bounds and passes it to `confirmSelection`, which prints it and
redraws the menu, and `cursor`, `windowStart` and the detent remainder are unchanged, in
the button half of `loop()` and in a whole `loop()` run that drains nothing; the list has
6 items and at `cursor = 3` the payload is the item at index 3, "Restart". -/
theorem C9_select (s : State) (hinv : MenuInv MENU_LEN MAX_LINES s) (now : Nat)
    (hprev : s.btnPrev = true) (hel : sub32 now s.btnLastChangeMs > BTN_DEBOUNCE_MS) :
    (0 ≤ s.cursor ∧ s.cursor.toNat < MENU_ITEMS.length) ∧
    ∃ item : String, MENU_ITEMS[s.cursor.toNat]? = some item ∧
      (loopButton s false now).2 = confirmSelection (loopButton s false now).1 (some item) ∧
      selectionsOf (loopButton s false now).2 = [some item] ∧
      (loopButton s false now).1.cursor = s.cursor ∧
      (loopButton s false now).1.windowStart = s.windowStart ∧
      (loopButton s false now).1.accum = s.accum ∧
      (s.enc_delta = 0 → loop s false now = loopButton s false now) ∧
      MENU_ITEMS.length = 6 ∧
      (s.cursor = 3 → MENU_ITEMS[3]? = some item ∧ item = "Restart") := by
  obtain ⟨⟨h1, h2⟩, -, -⟩ := hinv
  obtain ⟨hlt, item, hitem, hmenu⟩ := menuItem_inBounds s.cursor h1 h2
  obtain ⟨e1, e2, e3, -⟩ := loopButton_cursor s false now
  obtain ⟨-, -, c3⟩ := loopButton_closed s false now
  have hcond : false ≠ s.btnPrev ∧ sub32 now s.btnLastChangeMs > BTN_DEBOUNCE_MS := by
    rw [hprev]
    exact ⟨by decide, hel⟩
  refine ⟨⟨h1, hlt⟩, item, hitem, ?_, ?_, e1, e2, e3, ?_, by decide, ?_⟩
  · unfold loopButton
    rw [if_pos hcond]
    simp only [Bool.not_false, if_true, hmenu]
  · rw [c3, if_pos ⟨hcond, rfl⟩, hmenu]
  · intro hd
    unfold loop
    exact loopWith_idle _ _ s hd false now
  · intro hc
    rw [hc] at hitem
    have h3 : MENU_ITEMS[(3 : Int).toNat]? = some "Restart" := by decide
    rw [h3] at hitem
    have hi : item = "Restart" := (Option.some.inj hitem).symm
    exact ⟨by rw [hi]; decide, hi⟩

theorem C9_select_witness :
    selectionsOf
      (loopButton { initState 0 with cursor := 3, btnLastChangeMs := 100 } false 131).2
      = [some "Restart"] ∧
    (loopButton { initState 0 with cursor := 3, btnLastChangeMs := 100 } false 131).1.cursor
      = 3 := by
  obtain ⟨-, item, -, -, hsel, hcur, -, -, -, -, h3⟩ :=
    C9_select { initState 0 with cursor := 3, btnLastChangeMs := 100 } (by decide) 131 rfl
      (by decide)
  rw [hsel, (h3 rfl).2]
  exact ⟨rfl, hcur⟩

/-- C10, as stated, fails: eighteen raw steps from `cursor = 0`, `windowStart = 0`,
remainder `0` (here drained in one batch) give 4 moves of `+1`, remainder 2 and
`cursor = 4`, but `windowStart` stays `0`: the window only moves once
`cursor >= windowStart + MAX_LINES = 5`. -/
theorem C10_scenario_counterexample :
    movesOf (runCycles (initState 0) [⟨18, true, 0⟩]).2 = [1, 1, 1, 1] ∧
    (runCycles (initState 0) [⟨18, true, 0⟩]).1.accum = 2 ∧
    (runCycles (initState 0) [⟨18, true, 0⟩]).1.cursor = 4 ∧
    (runCycles (initState 0) [⟨18, true, 0⟩]).1.windowStart = 0 ∧
    ¬ ((runCycles (initState 0) [⟨18, true, 0⟩]).1.cursor = 4 ∧
       (runCycles (initState 0) [⟨18, true, 0⟩]).1.windowStart = 1) := by
  simp [runCycles, runCyclesWith, pollCycleWith, loopWith, fetchDelta, loopRotary, loopButton,
    whileUp, whileDown, updateWindow, wrap32, initState, STEPS_PER_DETENT, movesOf, sub32,
    BTN_DEBOUNCE_MS, MENU_LEN_eq, MAX_LINES_eq]

/-- C10 (amended). Scenario: with 6 items, 5 visible lines and `STEPS_PER_DETENT = 4`,
starting from `cursor = 0`, `windowStart = 0` and remainder `0`, eighteen raw steps in the
cursor-increasing direction, drained in any positive batches over any number of poll
cycles, produce 4 detent moves of `+1` with remainder 2 and end in the state `cursor = 4`,
`windowStart = 0`. -/
theorem C10_scenario (s : State) (hc : s.cursor = 0) (hw : s.windowStart = 0)
    (ha : s.accum = 0) (polls : List Poll) (hpos : ∀ p ∈ polls, 0 < p.d)
    (hsum : drained polls = 18) :
    MENU_LEN = 6 ∧ MAX_LINES = 5 ∧ STEPS_PER_DETENT = 4 ∧
    movesOf (runCycles s polls).2 = [1, 1, 1, 1] ∧
    (runCycles s polls).1.accum = 2 ∧
    (runCycles s polls).1.cursor = 4 ∧
    (runCycles s polls).1.windowStart = 0 := by
  have hN := MENU_LEN_eq
  have hV := MAX_LINES_eq
  have hinv : MenuInv MENU_LEN MAX_LINES s := by
    unfold MenuInv
    rw [hc, hw, hN, hV]
    decide
  have hle := (le_drained polls hpos).2
  have h := runCyclesWith_up MENU_LEN MAX_LINES (by decide) (by decide) (by decide) (by decide)
    polls s hinv (by omega) (by omega)
    (fun p hp => ⟨hpos p hp, by have := hle p hp; simp only [INT32_MAX]; omega⟩)
  rw [ha, hc, hw, hsum, hN, hV] at h
  obtain ⟨r1, r2, r3, r4⟩ := h
  unfold runCycles
  have e4 : (runCyclesWith MENU_LEN MAX_LINES s polls).1.cursor = 4 := by rw [hN, hV, r3]; decide
  refine ⟨hN, hV, rfl, ?_, ?_, e4, ?_⟩
  · rw [hN, hV, r2]; decide
  · rw [hN, hV, r1]; decide
  · rw [hN, hV] at e4 ⊢
    rw [r4, e4]; decide

theorem C10_scenario_witness :
    movesOf (runCycles (initState 0) [⟨3, true, 0⟩, ⟨9, true, 7⟩, ⟨6, true, 20⟩]).2
      = [1, 1, 1, 1] ∧
    (runCycles (initState 0) [⟨3, true, 0⟩, ⟨9, true, 7⟩, ⟨6, true, 20⟩]).1.accum = 2 ∧
    (runCycles (initState 0) [⟨3, true, 0⟩, ⟨9, true, 7⟩, ⟨6, true, 20⟩]).1.cursor = 4 ∧
    (runCycles (initState 0) [⟨3, true, 0⟩, ⟨9, true, 7⟩, ⟨6, true, 20⟩]).1.windowStart = 0 :=
  (C10_scenario (initState 0) rfl rfl rfl [⟨3, true, 0⟩, ⟨9, true, 7⟩, ⟨6, true, 20⟩]
    (by decide) (by decide)).2.2.2

/-- C11. Window at the extremes: for every list length `n >= 1` and visible-line count
`v >= 1` (values of `int`), in every state reached from `cursor = 0`, `windowStart = 0` by
poll cycles, `cursor = 0` implies `windowStart = 0`, and `cursor = n - 1` implies
`windowStart = n - v` when `n > v` and `windowStart = 0` when `n <= v`. -/
theorem C11_window_at_extremes (n v : Int) (hn1 : 1 ≤ n) (hn : n ≤ INT32_MAX) (hv1 : 1 ≤ v)
    (hv : v ≤ INT32_MAX) (s : State) (polls : List Poll) :
    ((runCyclesWith n v { s with cursor := 0, windowStart := 0 } polls).1.cursor = 0 →
      (runCyclesWith n v { s with cursor := 0, windowStart := 0 } polls).1.windowStart = 0) ∧
    ((runCyclesWith n v { s with cursor := 0, windowStart := 0 } polls).1.cursor = n - 1 →
      (v < n →
        (runCyclesWith n v { s with cursor := 0, windowStart := 0 } polls).1.windowStart
          = n - v) ∧
      (n ≤ v →
        (runCyclesWith n v { s with cursor := 0, windowStart := 0 } polls).1.windowStart
          = 0)) := by
  have hinv0 : MenuInv n v { s with cursor := 0, windowStart := 0 } := by
    unfold MenuInv
    simp only
    omega
  obtain ⟨⟨h1, h2⟩, ⟨h3, h4⟩, h5, h6⟩ :=
    runCyclesWith_inv n v hn1 hn hv1 hv polls _ hinv0
  refine ⟨fun h => by omega, fun h => ⟨fun hlt => by omega, fun hle => by omega⟩⟩

theorem C11_window_at_extremes_witness :
    (runCyclesWith 9 5 { initState 0 with cursor := 0, windowStart := 0 }
      [⟨40, true, 0⟩]).1.cursor = 9 - 1 ∧
    (runCyclesWith 9 5 { initState 0 with cursor := 0, windowStart := 0 }
      [⟨40, true, 0⟩]).1.windowStart = 9 - 5 := by
  have hc : (runCyclesWith 9 5 { initState 0 with cursor := 0, windowStart := 0 }
      [⟨40, true, 0⟩]).1.cursor = 9 - 1 := by
    simp [runCyclesWith, pollCycleWith, loopWith, fetchDelta, loopRotary, loopButton, whileUp,
      whileDown, updateWindow, wrap32, initState, STEPS_PER_DETENT, sub32, BTN_DEBOUNCE_MS]
  exact ⟨hc, ((C11_window_at_extremes 9 5 (by decide) (by decide) (by decide) (by decide)
    (initState 0) [⟨40, true, 0⟩]).2 hc).1 (by decide)⟩

/-- C12. Remainder bound: for every prior remainder `accum` and every drained delta `d`
(whether or not `accum + d` leaves the 32-bit range, so in particular when it does not),
after the two `while` loops `-STEPS_PER_DETENT < accum < STEPS_PER_DETENT`; starting from
the initial remainder `0` the bound holds after every run of poll cycles (a poll that
drains `0` skips the loops); and both loops terminate: the first after `accum / 4`
iterations with `accum < 4`, the second after `(-accum) / 4` iterations with
`accum > -4`. -/
theorem C12_remainder_bound (s : State) (d : Int) (polls : List Poll) (a c : Int)
    (ms : List Event) :
    (-STEPS_PER_DETENT < (loopRotary MENU_LEN MAX_LINES s d).1.accum ∧
      (loopRotary MENU_LEN MAX_LINES s d).1.accum < STEPS_PER_DETENT) ∧
    (-STEPS_PER_DETENT < (runCycles { s with accum := 0 } polls).1.accum ∧
      (runCycles { s with accum := 0 } polls).1.accum < STEPS_PER_DETENT) ∧
    ((whileUp MENU_LEN a c ms).1 < STEPS_PER_DETENT ∧
      (whileUp MENU_LEN a c ms).2.2.length = ms.length + (a / 4).toNat) ∧
    (-STEPS_PER_DETENT < (whileDown a c ms).1 ∧
      (whileDown a c ms).2.2.length = ms.length + ((-a) / 4).toNat) := by
  obtain ⟨r1, -⟩ := loopRotary_trace MENU_LEN MAX_LINES s d
  obtain ⟨u1, u2⟩ := whileUp_trace MENU_LEN a c ms
  obtain ⟨d1, d2⟩ := whileDown_trace a c ms
  have hrun := runCyclesWith_accum_bound MENU_LEN MAX_LINES polls { s with accum := 0 }
    (by show (-4 : Int) < 0; decide) (by show (0 : Int) < 4; decide)
  simp only [STEPS_PER_DETENT]
  refine ⟨?_, hrun, ⟨?_, ?_⟩, ⟨?_, ?_⟩⟩
  · rw [r1]
    generalize wrap32 (s.accum + d) = A
    omega
  · rw [u1]; omega
  · rw [u2]; simp
  · rw [d1]; omega
  · rw [d2]; simp

/-- C15. Empty drain is a no-op: a run of `loop()` whose `fetchDelta()` returns `0` leaves
the detent remainder, `cursor` and `windowStart` unchanged and emits no cursor move; so
does any number of consecutive runs of `loop()` with no encoder increment in between,
started with nothing to drain or right after any run of `loop()`. -/
theorem C15_empty_drain (s : State) (b : Bool) (t : Nat) (inputs : List (Bool × Nat)) :
    ((fetchDelta { s with enc_delta := 0 }).1 = 0 ∧
      (loop { s with enc_delta := 0 } b t).1.accum = s.accum ∧
      (loop { s with enc_delta := 0 } b t).1.cursor = s.cursor ∧
      (loop { s with enc_delta := 0 } b t).1.windowStart = s.windowStart ∧
      movesOf (loop { s with enc_delta := 0 } b t).2 = []) ∧
    ((loopTimes { s with enc_delta := 0 } inputs).accum = s.accum ∧
      (loopTimes { s with enc_delta := 0 } inputs).cursor = s.cursor ∧
      (loopTimes { s with enc_delta := 0 } inputs).windowStart = s.windowStart) ∧
    ((fetchDelta (loop s b t).1).1 = 0 ∧
      (loopTimes (loop s b t).1 inputs).accum = (loop s b t).1.accum ∧
      (loopTimes (loop s b t).1 inputs).cursor = (loop s b t).1.cursor ∧
      (loopTimes (loop s b t).1 inputs).windowStart = (loop s b t).1.windowStart) := by
  have hl : loop { s with enc_delta := 0 } b t = loopButton { s with enc_delta := 0 } b t :=
    loopWith_idle _ _ _ rfl b t
  obtain ⟨e1, e2, e3, -, -, e6⟩ := loopButton_cursor { s with enc_delta := 0 } b t
  have h0 : (loop s b t).1.enc_delta = 0 := loopWith_drained _ _ s b t
  refine ⟨⟨rfl, ?_, ?_, ?_, ?_⟩, loopTimes_idle inputs { s with enc_delta := 0 } rfl,
    ⟨h0, loopTimes_idle inputs (loop s b t).1 h0⟩⟩
  · rw [hl]; exact e3
  · rw [hl]; exact e1
  · rw [hl]; exact e2
  · rw [hl]; exact e6

/-- C13, as stated, fails: with the last reported change 1000 ms back, a raw level that
departs from the reported level at `now = 1000` and is back at `now = 1001` (a 1 ms
excursion) is reported at once as a press edge, which calls `confirmSelection`; once
30 ms have passed the release edge follows. -/
theorem C13_short_change_counterexample :
    (initState 0).btnPrev = true ∧ (initState 0).btnLastChangeMs = 0 ∧
    edgeCount (initState 0) [⟨0, false, 1000⟩, ⟨0, true, 1001⟩] = 1 ∧
    selectionsOf (runCycles (initState 0) [⟨0, false, 1000⟩, ⟨0, true, 1001⟩]).2
      = [some "Status"] ∧
    edgeCount (initState 0) [⟨0, false, 1000⟩, ⟨0, true, 1001⟩, ⟨0, true, 1031⟩] = 2 := by
  decide

/-- C13 (amended). Debounce rejects short changes: for every poll trace in which every
poll either samples the last reported level or, sampling a departed level, is taken no
more than `BTN_DEBOUNCE_MS` (30 ms, in 32-bit unsigned time) after the previously reported
change, no edge (neither press nor release) is emitted: the reported level and its
timestamp stay as they were and `confirmSelection` is not called; and a poll after such a
trace that samples the departed level later than that reports an edge at once (the reported
level becomes the sampled one, stamped with the time of the poll), however short the
excursion: it is the one edge of the trace so extended. -/
theorem C13_short_change (s : State) (polls : List Poll)
    (h : ∀ p ∈ polls,
      p.btnNow = s.btnPrev ∨ sub32 p.now s.btnLastChangeMs ≤ BTN_DEBOUNCE_MS) :
    (edgeCount s polls = 0 ∧ (runCycles s polls).1.btnPrev = s.btnPrev ∧
      (runCycles s polls).1.btnLastChangeMs = s.btnLastChangeMs ∧
      selectionsOf (runCycles s polls).2 = []) ∧
    (∀ q : Poll, q.btnNow ≠ s.btnPrev → sub32 q.now s.btnLastChangeMs > BTN_DEBOUNCE_MS →
      edgeFired (runCycles s polls).1 q = true ∧
      (pollCycle (runCycles s polls).1 q).1.btnPrev = q.btnNow ∧
      (pollCycle (runCycles s polls).1 q).1.btnLastChangeMs = q.now ∧
      edgeCount s (polls ++ [q]) = 1) := by
  obtain ⟨q1, q2, q3, q4⟩ := runCycles_quiet polls s h
  refine ⟨⟨q1, q2, q3, q4⟩, ?_⟩
  intro q hq1 hq2
  obtain ⟨f1, f2, f3⟩ := pollCycle_fires (runCycles s polls).1 q (by rw [q2]; exact hq1)
    (by rw [q3]; exact hq2)
  refine ⟨f1, f2, f3, ?_⟩
  rw [edgeCount_append, q1]
  simp only [edgeCount, f1, if_true]

theorem C13_short_change_witness :
    edgeCount { initState 0 with btnLastChangeMs := 990 }
      [⟨0, true, 995⟩, ⟨0, false, 1000⟩, ⟨0, false, 1010⟩, ⟨0, true, 1020⟩, ⟨0, true, 5000⟩]
      = 0 ∧
    edgeCount { initState 0 with btnLastChangeMs := 990 }
      ([⟨0, true, 995⟩, ⟨0, false, 1000⟩, ⟨0, false, 1010⟩, ⟨0, true, 1020⟩, ⟨0, true, 5000⟩]
        ++ [⟨0, false, 5001⟩]) = 1 :=
  ⟨(C13_short_change { initState 0 with btnLastChangeMs := 990 }
      [⟨0, true, 995⟩, ⟨0, false, 1000⟩, ⟨0, false, 1010⟩, ⟨0, true, 1020⟩, ⟨0, true, 5000⟩]
      (by decide)).1.1,
   ((C13_short_change { initState 0 with btnLastChangeMs := 990 }
      [⟨0, true, 995⟩, ⟨0, false, 1000⟩, ⟨0, false, 1010⟩, ⟨0, true, 1020⟩, ⟨0, true, 5000⟩]
      (by decide)).2 ⟨0, false, 5001⟩ (by decide) (by decide)).2.2.2⟩

/-- C14, as stated, fails: after a press reported at 1000 ms and a release reported at
2000 ms, the button is low again from 2000 ms on and held for 30 ms, polled at every
millisecond 2000, 2001, ..., 2030; none of the 31 polls reports an edge, because
`now - btnLastChangeMs` never exceeds 30. -/
theorem C14_stable_change_counterexample :
    (runCycles (initState 0) [⟨0, false, 1000⟩, ⟨0, true, 2000⟩]).1.btnPrev = true ∧
    (runCycles (initState 0) [⟨0, false, 1000⟩, ⟨0, true, 2000⟩]).1.btnLastChangeMs = 2000 ∧
    (holdPolls (fun _ => 0) false 2000 0 (30 + 1)).length = 31 ∧
    edgeCount (runCycles (initState 0) [⟨0, false, 1000⟩, ⟨0, true, 2000⟩]).1
      (holdPolls (fun _ => 0) false 2000 0 (30 + 1)) = 0 := by
  decide

/-- C14 (amended). Debounce accepts stable changes: for every state, if from time `t` the
raw level differs from the last reported level and stays there during `[t, t + D]` with
`D >= 30` ms, with one poll at every millisecond of that interval (any deltas drained),
and if `D >= 31` or the last reported change is not stamped with the 32-bit millisecond
value of `t` itself, then exactly one edge is emitted during the interval. -/
theorem C14_stable_change (s : State) (level : Bool) (hlevel : level ≠ s.btnPrev) (t D : Nat)
    (hD : 30 ≤ D) (he : 1 ≤ sub32 t s.btnLastChangeMs ∨ 31 ≤ D) (ds : Nat → Int) :
    edgeCount s (holdPolls ds level t 0 (D + 1)) = 1 := by
  apply holdPolls_fire ds level t (D + 1) 0 s (fun h => hlevel h.symm) (by omega)
  rw [sub32_mod]
  omega

theorem C14_stable_change_witness :
    edgeCount { initState 0 with btnLastChangeMs := 1999 }
      (holdPolls (fun _ => 0) false 2000 0 (30 + 1)) = 1 :=
  C14_stable_change { initState 0 with btnLastChangeMs := 1999 } false (by decide) 2000 30
    (by decide) (Or.inl (by decide)) (fun _ => 0)

/-- C16, as stated, fails at the end of the 32-bit range: with `enc_delta = 2147483647`,
`enc_state = 1` and the sample `0` the index is `4`, the table entry is `+1`, and
`enc_delta` becomes `-2147483648`, a change of `-4294967295`. -/
theorem C16_decoder_step_counterexample :
    lutIndex 1 0 = 4 ∧ lutStep 4 = some 1 ∧
    (encoderISR { initState 1 with enc_delta := 2147483647 } 0).map State.enc_delta
      = some (-2147483648) ∧
    (encoderISR { initState 1 with enc_delta := 2147483647 } 0).map State.enc_delta
      ≠ some (2147483647 + 1) := by
  decide

/-- C16 (amended). Decoder step: for every stored `enc_state` and every sampled value
`newAB`, `encoderISR` computes a lookup index in `0..15`, reads a table entry `step` in
`{-1, 0, +1}`, sets `enc_state` to `newAB & 3` whether or not `step` is `0`, and adds
`step` to `enc_delta` in 32-bit two's complement arithmetic: `enc_delta` changes by exactly
`step` whenever `enc_delta + step` lies in the `int32_t` range; no other global changes. -/
theorem C16_decoder_step (s : State) (newAB : Nat) :
    lutIndex s.enc_state newAB < 16 ∧
    ∃ step : Int, lutStep (lutIndex s.enc_state newAB) = some step ∧
      (step = -1 ∨ step = 0 ∨ step = 1) ∧
      ∃ s1 : State, encoderISR s newAB = some s1 ∧
        s1.enc_state = newAB &&& 0x03 ∧
        s1.enc_delta = (if step ≠ 0 then wrap32 (s.enc_delta + step) else s.enc_delta) ∧
        (INT32_MIN ≤ s.enc_delta + step → s.enc_delta + step ≤ INT32_MAX →
          s1.enc_delta = s.enc_delta + step) ∧
        s1.cursor = s.cursor ∧ s1.windowStart = s.windowStart ∧ s1.accum = s.accum ∧
        s1.btnPrev = s.btnPrev ∧ s1.btnLastChangeMs = s.btnLastChangeMs := by
  have hidx := lutIndex_lt s.enc_state newAB
  obtain ⟨step, hstep, hrange⟩ := lutStep_range _ hidx
  refine ⟨hidx, step, hstep, hrange, _, encoderISR_step s newAB step hstep, rfl, rfl, ?_,
    rfl, rfl, rfl, rfl, rfl⟩
  intro h1 h2
  simp only
  split
  · exact wrap32_of_range _ h1 h2
  · omega

theorem C16_decoder_step_witness :
    lutIndex 0xA7 0xFE < 16 ∧
    (encoderISR { initState 0xA7 with enc_delta := 41 } 0xFE).map
      (fun s1 => (s1.enc_state, s1.enc_delta)) = some (2, 40) := by
  refine ⟨(C16_decoder_step { initState 0xA7 with enc_delta := 41 } 0xFE).1, ?_⟩
  decide

/-- C20. Position tracking: with `phase` mapping the line states `00, 10, 11, 01` to
`0, 1, 2, 3`, for every initial `enc_state` in `0..3` and every finite sequence of 2-bit
samples each of which equals the state before it or differs from it in exactly one bit,
`encoderISR` run on each sample in turn ends with `enc_state` the last sample and a total
change of `enc_delta` congruent modulo 4 to `phase (last sample) - phase (initial state)`;
and a bounce `s -> t -> s` between adjacent states changes `enc_delta` (a value of
`int32_t`) by exactly `0`. -/
theorem C20_position_tracking (s : State) (hs : s.enc_state < 4) (samples : List Nat)
    (hv : validChain s.enc_state samples) :
    (∃ s1, runISR s samples = some s1 ∧ s1.enc_state = samples.getLastD s.enc_state ∧
      (s1.enc_delta - s.enc_delta) % 4
        = (phase (samples.getLastD s.enc_state) - phase s.enc_state) % 4) ∧
    (∀ t : Nat, t < 4 → oneBitApart s.enc_state t →
      INT32_MIN ≤ s.enc_delta → s.enc_delta ≤ INT32_MAX →
      ∃ s2, runISR s [t, s.enc_state] = some s2 ∧ s2.enc_state = s.enc_state ∧
        s2.enc_delta = s.enc_delta) := by
  refine ⟨runISR_phase samples s hs hv, ?_⟩
  intro t ht hadj h1 h2
  simp only [INT32_MIN, INT32_MAX] at h1 h2
  obtain ⟨hsteps, ht3, hs3⟩ := lut_reverse s.enc_state hs t ht hadj
  rcases hsteps with ⟨k1, k2⟩ | ⟨k1, k2⟩
  · refine ⟨_, runISR_two s t s.enc_state 1 (-1) k1 (by rw [ht3]; exact k2), hs3, ?_⟩
    simp only [ne_eq, one_ne_zero, not_false_eq_true, if_true, neg_eq_zero]
    unfold wrap32
    omega
  · refine ⟨_, runISR_two s t s.enc_state (-1) 1 k1 (by rw [ht3]; exact k2), hs3, ?_⟩
    simp only [ne_eq, one_ne_zero, not_false_eq_true, if_true, neg_eq_zero]
    unfold wrap32
    omega

theorem C20_position_tracking_witness :
    ∃ s1, runISR { initState 0 with enc_delta := 5 } [2, 3, 3, 1, 3, 2, 0, 1] = some s1 ∧
      s1.enc_state = [2, 3, 3, 1, 3, 2, 0, 1].getLastD (initState 0).enc_state ∧
      (s1.enc_delta - 5) % 4
        = (phase ([2, 3, 3, 1, 3, 2, 0, 1].getLastD (initState 0).enc_state)
            - phase (initState 0).enc_state) % 4 :=
  (C20_position_tracking { initState 0 with enc_delta := 5 } (by decide)
    [2, 3, 3, 1, 3, 2, 0, 1] (by decide)).1

end RotaryMenu
